import Mathlib

set_option linter.unusedVariables false

/- Shallow embedding of the terrain LOD selection engine:
   TerrainQuadTree.cpp / TerrainQuadTree.h / TerrainApp.cpp
   (Chapter 16 Instancing and Frustum Culling, InstancingAndCulling).
   Floats are embedded as exact rationals; sqrtf is handled via squared
   comparisons (lemma sqrtLt_iff below) and, for statements about the
   distance itself, via Real.sqrt. -/

/-- DirectX containment classification returned by `BoundingFrustum::Contains`. -/
inductive ContainmentType where
  | DISJOINT
  | INTERSECTS
  | CONTAINS
deriving DecidableEq, Repr

/-- DirectX `BoundingBox`: center and extents (XMFLOAT3 components as rationals). -/
structure BoundingBox where
  centerX : ℚ
  centerY : ℚ
  centerZ : ℚ
  extentX : ℚ
  extentY : ℚ
  extentZ : ℚ
deriving DecidableEq

/-- The world-space view frustum, abstracted by its DirectXMath containment
test (`BoundingFrustum::Contains` is external library code, not part of this
repository); the selection code only ever consults this test. -/
structure BoundingFrustum where
  contains : BoundingBox → ContainmentType

/-- DirectX `XMFLOAT3` with rational components. -/
structure XMFLOAT3 where
  x : ℚ
  y : ℚ
  z : ℚ
deriving DecidableEq

/-- 4x4 rational matrix standing in for `XMMATRIX` / `XMFLOAT4X4`. -/
def Mat4 := Fin 4 → Fin 4 → ℚ

instance : DecidableEq Mat4 := fun A B =>
  decidable_of_iff (∀ i j, A i j = B i j)
    ⟨fun h => funext fun i => funext fun j => h i j, fun h i j => by rw [h]⟩

/-- Matrix product in DirectXMath's row-vector convention (`A * B` applies `A`
first, then `B`), with the 4-term dot product written out. -/
def matMul (A B : Mat4) : Mat4 :=
  fun i j => A i 0 * B 0 j + A i 1 * B 1 j + A i 2 * B 2 j + A i 3 * B 3 j

/-- Matrix transpose (`XMMatrixTranspose`). -/
def matTranspose (A : Mat4) : Mat4 := fun i j => A j i

/-- `XMMatrixScaling(sx, sy, sz)`: diagonal scaling matrix, row-major. -/
def XMMatrixScaling (sx sy sz : ℚ) : Mat4 :=
  ![![sx, 0, 0, 0], ![0, sy, 0, 0], ![0, 0, sz, 0], ![0, 0, 0, 1]]

/-- `XMMatrixTranslation(tx, ty, tz)`: translation matrix, row-major
(translation in the last row, row-vector convention). -/
def XMMatrixTranslation (tx ty tz : ℚ) : Mat4 :=
  ![![1, 0, 0, 0], ![0, 1, 0, 0], ![0, 0, 1, 0], ![tx, ty, tz, 1]]

/-- `TerrainQuadTree` configuration fields as set by
`TerrainQuadTree::Initialize` (TerrainQuadTree.cpp lines 29-43). -/
structure QTConfig where
  mTerrainSize : ℚ
  mTerrainHeight : ℚ
  mFovY : ℚ
  mScreenHeight : ℚ

/-- `mLevelDistance` as written by `Initialize`:
`mLevelDistance[2] = mTerrainSize * 0.10f`, `mLevelDistance[1] = mTerrainSize * 0.25f`,
`mLevelDistance[0] = mTerrainSize * 2.0f` (TerrainQuadTree.cpp lines 40-42). -/
def mLevelDistance (cfg : QTConfig) : ℕ → ℚ
  | 2 => cfg.mTerrainSize * (1/10)
  | 1 => cfg.mTerrainSize * (1/4)
  | _ => cfg.mTerrainSize * 2

/-- `TerrainQuadTree::GetTextureIndex` (TerrainQuadTree.cpp lines 45-63). -/
def GetTextureIndex (level nodeX nodeZ : ℕ) : ℕ :=
  match level with
  | 0 => 0
  | 1 => 1 + nodeZ * 2 + nodeX
  | 2 => 5 + nodeZ * 4 + nodeX
  | _ => 0

/-- The per-axis overshoot computed inside `DistanceToBox`
(TerrainQuadTree.cpp lines 10-16), factored over one axis:
`if p < lo` then `lo - p` `else if p > hi` then `p - hi` else `0`. -/
def overshoot (p lo hi : ℚ) : ℚ :=
  if p < lo then lo - p else if p > hi then p - hi else 0

/-- The quantity `dx*dx + dz*dz` to which `DistanceToBox`
(TerrainQuadTree.cpp lines 8-19) applies `sqrtf`. -/
def distSqToBox (px pz minX minZ maxX maxZ : ℚ) : ℚ :=
  overshoot px minX maxX * overshoot px minX maxX +
    overshoot pz minZ maxZ * overshoot pz minZ maxZ

/-- `DistanceToBox` (TerrainQuadTree.cpp lines 8-19) over the reals, with
`Real.sqrt` standing in for `sqrtf`. -/
noncomputable def DistanceToBox (px pz minX minZ maxX maxZ : ℝ) : ℝ :=
  let dx : ℝ := if px < minX then minX - px else if px > maxX then px - maxX else 0
  let dz : ℝ := if pz < minZ then minZ - pz else if pz > maxZ then pz - maxZ else 0
  Real.sqrt (dx * dx + dz * dz)

/-- Boolean encoding of the comparison `sqrtf s < R` for `s ≥ 0`, used so that
the selection remains computable over ℚ: since `sqrt s ≥ 0`, `sqrt s < R` holds
iff `0 < R` and `s < R*R` (proved exactly in `sqrtLt_iff` below). -/
def sqrtLt (s R : ℚ) : Bool := decide (0 < R) && decide (s < R * R)

/-- `GRID_SIZE` constant of `SelectTiles` (TerrainQuadTree.cpp line 101). -/
def GRID_SIZE : ℕ := 4

/-- `cellSize = mTerrainSize / GRID_SIZE` (TerrainQuadTree.cpp line 102). -/
def cellSize (cfg : QTConfig) : ℚ := cfg.mTerrainSize / GRID_SIZE

/-- `halfSize = mTerrainSize * 0.5f` (TerrainQuadTree.cpp line 87). -/
def halfSize (cfg : QTConfig) : ℚ := cfg.mTerrainSize * (1/2)

/-- `cellMinX = -halfSize + cx * cellSize` (TerrainQuadTree.cpp line 111). -/
def cellMinX (cfg : QTConfig) (cx : ℕ) : ℚ := -halfSize cfg + cx * cellSize cfg

/-- `cellMinZ = -halfSize + cz * cellSize` (TerrainQuadTree.cpp line 112). -/
def cellMinZ (cfg : QTConfig) (cz : ℕ) : ℚ := -halfSize cfg + cz * cellSize cfg

/-- The cell LOD assignment of `SelectTiles` (TerrainQuadTree.cpp lines
107-127): `dist < mLevelDistance[2] → 2`, `else dist < mLevelDistance[1] → 1`,
`else 0`, with `dist = sqrtf(dx*dx+dz*dz)` and each comparison encoded by
`sqrtLt` on the squared distance. -/
def cellLOD (cfg : QTConfig) (camX camZ : ℚ) (cx cz : ℕ) : ℕ :=
  let s := distSqToBox camX camZ (cellMinX cfg cx) (cellMinZ cfg cz)
    (cellMinX cfg cx + cellSize cfg) (cellMinZ cfg cz + cellSize cfg)
  if sqrtLt s (mLevelDistance cfg 2) then 2
  else if sqrtLt s (mLevelDistance cfg 1) then 1
  else 0

/-- The vertically extruded block AABB built inside `IsBlockVisible`
(TerrainQuadTree.cpp lines 68-75): center `(cx, h/2, cz)`, extents
`(halfX, h/2 + 50, halfZ)`. -/
def blockBounds (cfg : QTConfig) (minX minZ maxX maxZ : ℚ) : BoundingBox :=
  { centerX := (minX + maxX) * (1/2)
    centerY := cfg.mTerrainHeight * (1/2)
    centerZ := (minZ + maxZ) * (1/2)
    extentX := (maxX - minX) * (1/2)
    extentY := cfg.mTerrainHeight * (1/2) + 50
    extentZ := (maxZ - minZ) * (1/2) }

/-- `TerrainQuadTree::IsBlockVisible` (TerrainQuadTree.cpp lines 65-78):
`frustum.Contains(blockBounds) != DISJOINT`. -/
def IsBlockVisible (cfg : QTConfig) (minX minZ maxX maxZ : ℚ)
    (frustum : BoundingFrustum) : Bool :=
  decide (frustum.contains (blockBounds cfg minX minZ maxX maxZ) ≠ ContainmentType.DISJOINT)

/-- `IsBlockVisible` applied to the cell `(cx, cz)` of the 4x4 grid, exactly as
every emission pass of `SelectTiles` does (e.g. TerrainQuadTree.cpp line 145). -/
def cellVisible (cfg : QTConfig) (fr : BoundingFrustum) (cx cz : ℕ) : Bool :=
  IsBlockVisible cfg (cellMinX cfg cx) (cellMinZ cfg cz)
    (cellMinX cfg cx + cellSize cfg) (cellMinZ cfg cz + cellSize cfg) fr

/-- `TerrainTile` (TerrainQuadTree.h lines 34-44, plus the `UVOffset`/`UVScale`
fields written by TerrainQuadTree.cpp), with `XMFLOAT2` fields split into
components. -/
structure TerrainTile where
  Level : ℕ
  NodeX : ℕ
  NodeZ : ℕ
  WorldMinX : ℚ
  WorldMinZ : ℚ
  WorldSize : ℚ
  HeightMapIndex : ℕ
  DiffuseMapIndex : ℕ
  NormalMapIndex : ℕ
  UVOffsetX : ℚ
  UVOffsetY : ℚ
  UVScaleX : ℚ
  UVScaleY : ℚ
  World : Mat4
deriving DecidableEq

/-- The world matrix stored into every tile (TerrainQuadTree.cpp lines
165-167, repeated at 209-211 and 251-253):
`XMMatrixTranspose(XMMatrixScaling(cellSize,1,cellSize) * XMMatrixTranslation(cellMinX,0,cellMinZ))`. -/
def tileWorld (cfg : QTConfig) (cx cz : ℕ) : Mat4 :=
  matTranspose (matMul (XMMatrixScaling (cellSize cfg) 1 (cellSize cfg))
    (XMMatrixTranslation (cellMinX cfg cx) 0 (cellMinZ cfg cz)))

/-- Tile constructed by the Level-2 emission pass body
(TerrainQuadTree.cpp lines 148-167). -/
def mkTileL2 (cfg : QTConfig) (cx cz : ℕ) : TerrainTile :=
  { Level := 2
    NodeX := cx
    NodeZ := cz
    WorldMinX := cellMinX cfg cx
    WorldMinZ := cellMinZ cfg cz
    WorldSize := cellSize cfg
    HeightMapIndex := GetTextureIndex 2 cx cz
    DiffuseMapIndex := GetTextureIndex 2 cx cz
    NormalMapIndex := GetTextureIndex 2 cx cz
    UVOffsetX := 0
    UVOffsetY := 0
    UVScaleX := 1
    UVScaleY := 1
    World := tileWorld cfg cx cz }

/-- Tile constructed by the Level-1 emission pass body
(TerrainQuadTree.cpp lines 189-211): `NodeX = cx/2`, texture index for the
coalesced 2x2 node, UV offset `(localX*0.5, localZ*0.5)` with
`localX = cx % 2`, `localZ = cz % 2`, UV scale `(0.5, 0.5)`. -/
def mkTileL1 (cfg : QTConfig) (cx cz : ℕ) : TerrainTile :=
  { Level := 1
    NodeX := cx / 2
    NodeZ := cz / 2
    WorldMinX := cellMinX cfg cx
    WorldMinZ := cellMinZ cfg cz
    WorldSize := cellSize cfg
    HeightMapIndex := GetTextureIndex 1 (cx / 2) (cz / 2)
    DiffuseMapIndex := GetTextureIndex 1 (cx / 2) (cz / 2)
    NormalMapIndex := GetTextureIndex 1 (cx / 2) (cz / 2)
    UVOffsetX := (cx % 2 : ℕ) * (1/2)
    UVOffsetY := (cz % 2 : ℕ) * (1/2)
    UVScaleX := 1/2
    UVScaleY := 1/2
    World := tileWorld cfg cx cz }

/-- Tile constructed by the Level-0 emission pass body
(TerrainQuadTree.cpp lines 233-253): `NodeX = NodeZ = 0`, texture index 0,
UV offset `(cx*0.25, cz*0.25)`, UV scale `(0.25, 0.25)`. -/
def mkTileL0 (cfg : QTConfig) (cx cz : ℕ) : TerrainTile :=
  { Level := 0
    NodeX := 0
    NodeZ := 0
    WorldMinX := cellMinX cfg cx
    WorldMinZ := cellMinZ cfg cz
    WorldSize := cellSize cfg
    HeightMapIndex := GetTextureIndex 0 0 0
    DiffuseMapIndex := GetTextureIndex 0 0 0
    NormalMapIndex := GetTextureIndex 0 0 0
    UVOffsetX := (cx : ℕ) * (1/4)
    UVOffsetY := (cz : ℕ) * (1/4)
    UVScaleX := 1/4
    UVScaleY := 1/4
    World := tileWorld cfg cx cz }

/-- The 16 grid cells `(cx, cz)` in the traversal order of every pass of
`SelectTiles` (`for cz { for cx { ... } }`, cz outer). -/
def gridCells : List (ℕ × ℕ) :=
  (List.range GRID_SIZE).flatMap fun cz => (List.range GRID_SIZE).map fun cx => (cx, cz)

/-- Level-2 emission pass (TerrainQuadTree.cpp lines 134-171): keep the cells
whose LOD is 2 and which pass `IsBlockVisible`, emit `mkTileL2` for each. -/
def passL2 (cfg : QTConfig) (camX camZ : ℚ) (fr : BoundingFrustum) : List TerrainTile :=
  (gridCells.filter fun c =>
    decide (cellLOD cfg camX camZ c.1 c.2 = 2) && cellVisible cfg fr c.1 c.2).map
    fun c => mkTileL2 cfg c.1 c.2

/-- Level-1 emission pass (TerrainQuadTree.cpp lines 175-215). -/
def passL1 (cfg : QTConfig) (camX camZ : ℚ) (fr : BoundingFrustum) : List TerrainTile :=
  (gridCells.filter fun c =>
    decide (cellLOD cfg camX camZ c.1 c.2 = 1) && cellVisible cfg fr c.1 c.2).map
    fun c => mkTileL1 cfg c.1 c.2

/-- Level-0 emission pass (TerrainQuadTree.cpp lines 219-257). -/
def passL0 (cfg : QTConfig) (camX camZ : ℚ) (fr : BoundingFrustum) : List TerrainTile :=
  (gridCells.filter fun c =>
    decide (cellLOD cfg camX camZ c.1 c.2 = 0) && cellVisible cfg fr c.1 c.2).map
    fun c => mkTileL0 cfg c.1 c.2

/-- `TerrainQuadTree::SelectTiles` (TerrainQuadTree.cpp lines 80-258) with the
caller's `outTiles` vector made explicit: the vector is cleared at entry
(line 85) and then the three emission passes append, in source order
(level 2, then 1, then 0). -/
def SelectTilesInto (cfg : QTConfig) (cameraPos : XMFLOAT3)
    (worldFrustum : BoundingFrustum) (outTiles : List TerrainTile) : List TerrainTile :=
  let cleared : List TerrainTile := []
  cleared ++ passL2 cfg cameraPos.x cameraPos.z worldFrustum
    ++ passL1 cfg cameraPos.x cameraPos.z worldFrustum
    ++ passL0 cfg cameraPos.x cameraPos.z worldFrustum

/-- `SelectTiles` as a pure function of its inputs (the `outTiles` argument is
cleared at entry, so its prior contents are irrelevant). -/
def SelectTiles (cfg : QTConfig) (cameraPos : XMFLOAT3)
    (worldFrustum : BoundingFrustum) : List TerrainTile :=
  SelectTilesInto cfg cameraPos worldFrustum []

/-- `TerrainTileInstanceGPU` as filled by `TerrainApp::UpdateTerrainInstances`
(TerrainApp.cpp lines 471-480). -/
structure TerrainTileInstanceGPU where
  World : Mat4
  HeightMapIndex : ℕ
  DiffuseMapIndex : ℕ
  NormalMapIndex : ℕ
  LODLevel : ℕ
  UVOffsetX : ℚ
  UVOffsetY : ℚ
  UVScaleX : ℚ
  UVScaleY : ℚ
deriving DecidableEq

/-- The per-tile instance record copied by the upload loop
(TerrainApp.cpp lines 471-480). -/
def tileToInstance (t : TerrainTile) : TerrainTileInstanceGPU :=
  { World := t.World
    HeightMapIndex := t.HeightMapIndex
    DiffuseMapIndex := t.DiffuseMapIndex
    NormalMapIndex := t.NormalMapIndex
    LODLevel := t.Level
    UVOffsetX := t.UVOffsetX
    UVOffsetY := t.UVOffsetY
    UVScaleX := t.UVScaleX
    UVScaleY := t.UVScaleY }

/-- The instance upload loop of `TerrainApp::UpdateTerrainInstances`
(TerrainApp.cpp lines 467-482): `for (i = 0; i < size && i < 64; ++i)`
copies entry `i` in list order, i.e. the first at most 64 entries. -/
def uploadInstances (tiles : List TerrainTile) : List TerrainTileInstanceGPU :=
  (tiles.take 64).map tileToInstance

/-- The 21 valid `(level, x, z)` triples: level 0 on a 1x1 grid, level 1 on a
2x2 grid, level 2 on a 4x4 grid (TerrainQuadTree.h lines 9-16). -/
def validTriples : List (ℕ × ℕ × ℕ) :=
  (0, 0, 0) ::
    ((List.range 2).flatMap fun z => (List.range 2).map fun x => (1, x, z)) ++
    ((List.range 4).flatMap fun z => (List.range 4).map fun x => (2, x, z))

/- ------------------------------------------------------------------ -/
/- Bridge lemmas between the rational squared-distance encoding and the
   real square-root distance.                                          -/
/- ------------------------------------------------------------------ -/

/-- `distSqToBox` is a sum of squares, hence nonnegative. -/
theorem distSqToBox_nonneg (px pz a b c d : ℚ) : 0 ≤ distSqToBox px pz a b c d := by
  unfold distSqToBox
  have h1 := mul_self_nonneg (overshoot px a c)
  have h2 := mul_self_nonneg (overshoot pz b d)
  linarith

/-- For `0 ≤ s`, the boolean `sqrtLt s R` decides exactly `Real.sqrt s < R`. -/
theorem sqrtLt_iff (s R : ℚ) (hs : 0 ≤ s) :
    sqrtLt s R = true ↔ Real.sqrt (s : ℝ) < (R : ℝ) := by
  unfold sqrtLt
  simp only [Bool.and_eq_true, decide_eq_true_eq]
  rcases le_or_lt R 0 with hR | hR
  · constructor
    · rintro ⟨h1, _⟩; exact absurd h1 (not_lt.mpr hR)
    · intro h
      have hR' : (R : ℝ) ≤ 0 := by exact_mod_cast hR
      exact absurd h (not_lt.mpr (le_trans hR' (Real.sqrt_nonneg _)))
  · rw [Real.sqrt_lt' (by exact_mod_cast hR)]
    constructor
    · rintro ⟨_, h2⟩
      have h3 : (s : ℝ) < ((R * R : ℚ) : ℝ) := by exact_mod_cast h2
      calc (s : ℝ) < ((R * R : ℚ) : ℝ) := h3
        _ = (R : ℝ) ^ 2 := by push_cast; ring
    · intro h
      refine ⟨hR, ?_⟩
      have h3 : ((s : ℚ) : ℝ) < ((R * R : ℚ) : ℝ) := by
        rw [show ((R * R : ℚ) : ℝ) = (R : ℝ) ^ 2 by push_cast; ring]
        exact h
      exact_mod_cast h3

/-- The real-valued `DistanceToBox`, at rational inputs, is the square root of
the rational `distSqToBox`. -/
theorem DistanceToBox_eq_sqrt_distSq (px pz a b c d : ℚ) :
    DistanceToBox (px : ℝ) (pz : ℝ) (a : ℝ) (b : ℝ) (c : ℝ) (d : ℝ) =
      Real.sqrt ((distSqToBox px pz a b c d : ℚ) : ℝ) := by
  have hx : (if (px : ℝ) < (a : ℝ) then (a : ℝ) - px
      else if (px : ℝ) > (c : ℝ) then (px : ℝ) - c else 0) = ((overshoot px a c : ℚ) : ℝ) := by
    unfold overshoot
    by_cases h1 : px < a
    · rw [if_pos (by exact_mod_cast h1), if_pos h1]; push_cast; ring
    · rw [if_neg (by exact_mod_cast h1), if_neg h1]
      by_cases h2 : px > c
      · rw [if_pos (by exact_mod_cast h2), if_pos h2]; push_cast; ring
      · rw [if_neg (by exact_mod_cast h2), if_neg h2]; norm_num
  have hz : (if (pz : ℝ) < (b : ℝ) then (b : ℝ) - pz
      else if (pz : ℝ) > (d : ℝ) then (pz : ℝ) - d else 0) = ((overshoot pz b d : ℚ) : ℝ) := by
    unfold overshoot
    by_cases h1 : pz < b
    · rw [if_pos (by exact_mod_cast h1), if_pos h1]; push_cast; ring
    · rw [if_neg (by exact_mod_cast h1), if_neg h1]
      by_cases h2 : pz > d
      · rw [if_pos (by exact_mod_cast h2), if_pos h2]; push_cast; ring
      · rw [if_neg (by exact_mod_cast h2), if_neg h2]; norm_num
  unfold DistanceToBox
  rw [hx, hz]
  unfold distSqToBox
  push_cast
  ring_nf

/- ------------------------------------------------------------------ -/
/- C1                                                                  -/
/- ------------------------------------------------------------------ -/

/-- C1: for every valid `(level, x, z)` triple, `GetTextureIndex` returns `0`
for level 0, `1 + z*2 + x` for level 1 and `5 + z*4 + x` for level 2; over the
21 valid triples the indices are pairwise distinct and exactly cover `0..20`,
and `GetTextureIndex 0 0 0 = 0`. -/
theorem C1_texture_index_bijection :
    (∀ t ∈ validTriples,
      GetTextureIndex t.1 t.2.1 t.2.2 =
        (if t.1 = 0 then 0 else if t.1 = 1 then 1 + t.2.2 * 2 + t.2.1
          else 5 + t.2.2 * 4 + t.2.1)) ∧
    (validTriples.map fun t => GetTextureIndex t.1 t.2.1 t.2.2).Nodup ∧
    (validTriples.map fun t => GetTextureIndex t.1 t.2.1 t.2.2).toFinset = Finset.range 21 ∧
    validTriples.length = 21 ∧
    GetTextureIndex 0 0 0 = 0 := by decide

/-- Witness for C1 at the concrete valid triple `(1, 1, 0)`. -/
theorem C1_texture_index_bijection_witness :
    (1, 1, 0) ∈ validTriples ∧ GetTextureIndex 1 1 0 = 2 :=
  ⟨by decide, C1_texture_index_bijection.1 (1, 1, 0) (by decide)⟩

/- ------------------------------------------------------------------ -/
/- C2                                                                  -/
/- ------------------------------------------------------------------ -/

/-- C2: in Variant B1, each cell of the 4x4 grid gets its LOD from its
point-to-box camera distance `d`: level 2 if `d < R2`, else level 1 if
`d < R1`, else level 0, where `R2 = 0.10 * terrainSize` and
`R1 = 0.25 * terrainSize`, so `R2 < R1` for a positive terrain size. -/
theorem C2_ring_lod_assignment (cfg : QTConfig) (camX camZ : ℚ) (cx cz : ℕ)
    (hsize : 0 < cfg.mTerrainSize) (hcx : cx < 4) (hcz : cz < 4) :
    mLevelDistance cfg 2 = cfg.mTerrainSize * (1/10) ∧
    mLevelDistance cfg 1 = cfg.mTerrainSize * (1/4) ∧
    mLevelDistance cfg 2 < mLevelDistance cfg 1 ∧
    cellLOD cfg camX camZ cx cz =
      (if DistanceToBox (camX : ℝ) (camZ : ℝ) ((cellMinX cfg cx : ℚ) : ℝ)
            ((cellMinZ cfg cz : ℚ) : ℝ) ((cellMinX cfg cx + cellSize cfg : ℚ) : ℝ)
            ((cellMinZ cfg cz + cellSize cfg : ℚ) : ℝ) < ((mLevelDistance cfg 2 : ℚ) : ℝ)
        then 2
        else if DistanceToBox (camX : ℝ) (camZ : ℝ) ((cellMinX cfg cx : ℚ) : ℝ)
            ((cellMinZ cfg cz : ℚ) : ℝ) ((cellMinX cfg cx + cellSize cfg : ℚ) : ℝ)
            ((cellMinZ cfg cz + cellSize cfg : ℚ) : ℝ) < ((mLevelDistance cfg 1 : ℚ) : ℝ)
        then 1 else 0) := by
  refine ⟨rfl, rfl, ?_, ?_⟩
  · show cfg.mTerrainSize * (1/10) < cfg.mTerrainSize * (1/4)
    nlinarith
  · rw [DistanceToBox_eq_sqrt_distSq]
    set s := distSqToBox camX camZ (cellMinX cfg cx) (cellMinZ cfg cz)
      (cellMinX cfg cx + cellSize cfg) (cellMinZ cfg cz + cellSize cfg) with hs
    have hnn : 0 ≤ s := distSqToBox_nonneg _ _ _ _ _ _
    unfold cellLOD
    rw [← hs]
    by_cases h2 : sqrtLt s (mLevelDistance cfg 2) = true
    · rw [if_pos h2, if_pos ((sqrtLt_iff s _ hnn).mp h2)]
    · rw [if_neg h2, if_neg (fun hc => h2 ((sqrtLt_iff s _ hnn).mpr hc))]
      by_cases h1 : sqrtLt s (mLevelDistance cfg 1) = true
      · rw [if_pos h1, if_pos ((sqrtLt_iff s _ hnn).mp h1)]
      · rw [if_neg h1, if_neg (fun hc => h1 ((sqrtLt_iff s _ hnn).mpr hc))]

/-- Witness for C2 at terrain size 512, camera `(10, 20)`, cell `(1, 2)`. -/
theorem C2_ring_lod_assignment_witness :
    (0 : ℚ) < 512 ∧
    mLevelDistance ⟨512, 150, 1, 720⟩ 2 < mLevelDistance ⟨512, 150, 1, 720⟩ 1 :=
  ⟨by norm_num,
    (C2_ring_lod_assignment ⟨512, 150, 1, 720⟩ 10 20 1 2 (by norm_num) (by norm_num)
      (by norm_num)).2.2.1⟩

/- ------------------------------------------------------------------ -/
/- C6                                                                  -/
/- ------------------------------------------------------------------ -/

/-- C6: `SelectTiles` is deterministic and performs full replacement: the
result never depends on the prior contents of the output vector (which is
cleared at entry), and equal inputs give element-for-element equal outputs. -/
theorem C6_deterministic_full_replacement (cfg : QTConfig) (cameraPos : XMFLOAT3)
    (fr : BoundingFrustum) (prev₁ prev₂ : List TerrainTile) :
    SelectTilesInto cfg cameraPos fr prev₁ = SelectTilesInto cfg cameraPos fr prev₂ ∧
    SelectTilesInto cfg cameraPos fr prev₁ = SelectTiles cfg cameraPos fr :=
  ⟨rfl, rfl⟩

/- ------------------------------------------------------------------ -/
/- Structure of the SelectTiles output                                 -/
/- ------------------------------------------------------------------ -/

/-- A pair is a grid cell iff both coordinates are below `GRID_SIZE = 4`. -/
theorem mem_gridCells (c : ℕ × ℕ) : c ∈ gridCells ↔ c.1 < 4 ∧ c.2 < 4 := by
  constructor
  · intro h
    simp only [gridCells, GRID_SIZE, List.mem_flatMap, List.mem_map, List.mem_range] at h
    obtain ⟨cz, hz, cx, hx, rfl⟩ := h
    exact ⟨hx, hz⟩
  · rintro ⟨h1, h2⟩
    simp only [gridCells, GRID_SIZE, List.mem_flatMap, List.mem_map, List.mem_range]
    exact ⟨c.2, h2, c.1, h1, rfl⟩

/-- `cellMinZ` is the same formula as `cellMinX`. -/
theorem cellMinZ_eq_cellMinX (cfg : QTConfig) (c : ℕ) : cellMinZ cfg c = cellMinX cfg c := rfl

/-- For a positive terrain size the cell size is positive. -/
theorem cellSize_pos (cfg : QTConfig) (hsize : 0 < cfg.mTerrainSize) : 0 < cellSize cfg := by
  unfold cellSize GRID_SIZE
  exact div_pos hsize (by norm_num)

/-- For a positive terrain size, distinct cells have distinct min corners. -/
theorem cellMinX_inj (cfg : QTConfig) (hsize : 0 < cfg.mTerrainSize) {a b : ℕ}
    (h : cellMinX cfg a = cellMinX cfg b) : a = b := by
  unfold cellMinX at h
  have hcs : (0 : ℚ) < cellSize cfg := cellSize_pos cfg hsize
  have h2 : (a : ℚ) * cellSize cfg = (b : ℚ) * cellSize cfg := by linarith
  have h3 : (a : ℚ) = b := mul_right_cancel₀ (ne_of_gt hcs) h2
  exact_mod_cast h3

/-- `cellLOD` only takes the values 2, 1, or 0. -/
theorem cellLOD_cases (cfg : QTConfig) (camX camZ : ℚ) (cx cz : ℕ) :
    cellLOD cfg camX camZ cx cz = 2 ∨ cellLOD cfg camX camZ cx cz = 1 ∨
      cellLOD cfg camX camZ cx cz = 0 := by
  unfold cellLOD
  dsimp only
  split_ifs <;> simp

/-- Membership characterization of the `SelectTiles` output: the tiles are
exactly the `mkTileL2`/`mkTileL1`/`mkTileL0` records of the visible grid cells,
routed by each cell's LOD. -/
theorem mem_SelectTiles (cfg : QTConfig) (cam : XMFLOAT3) (fr : BoundingFrustum)
    (t : TerrainTile) :
    t ∈ SelectTiles cfg cam fr ↔
      ∃ cx cz, cx < 4 ∧ cz < 4 ∧ cellVisible cfg fr cx cz = true ∧
        ((cellLOD cfg cam.x cam.z cx cz = 2 ∧ t = mkTileL2 cfg cx cz) ∨
         (cellLOD cfg cam.x cam.z cx cz = 1 ∧ t = mkTileL1 cfg cx cz) ∨
         (cellLOD cfg cam.x cam.z cx cz = 0 ∧ t = mkTileL0 cfg cx cz)) := by
  unfold SelectTiles SelectTilesInto passL2 passL1 passL0
  simp only [List.nil_append, List.mem_append, List.mem_map, List.mem_filter,
    Bool.and_eq_true, decide_eq_true_eq]
  constructor
  · rintro ((⟨c, ⟨hc, hlod, hvis⟩, rfl⟩ | ⟨c, ⟨hc, hlod, hvis⟩, rfl⟩) |
      ⟨c, ⟨hc, hlod, hvis⟩, rfl⟩)
    · obtain ⟨h1, h2⟩ := (mem_gridCells c).mp hc
      exact ⟨c.1, c.2, h1, h2, hvis, Or.inl ⟨hlod, rfl⟩⟩
    · obtain ⟨h1, h2⟩ := (mem_gridCells c).mp hc
      exact ⟨c.1, c.2, h1, h2, hvis, Or.inr (Or.inl ⟨hlod, rfl⟩)⟩
    · obtain ⟨h1, h2⟩ := (mem_gridCells c).mp hc
      exact ⟨c.1, c.2, h1, h2, hvis, Or.inr (Or.inr ⟨hlod, rfl⟩)⟩
  · rintro ⟨cx, cz, h1, h2, hvis, (⟨hlod, rfl⟩ | ⟨hlod, rfl⟩ | ⟨hlod, rfl⟩)⟩
    · exact Or.inl (Or.inl ⟨(cx, cz), ⟨(mem_gridCells _).mpr ⟨h1, h2⟩, hlod, hvis⟩, rfl⟩)
    · exact Or.inl (Or.inr ⟨(cx, cz), ⟨(mem_gridCells _).mpr ⟨h1, h2⟩, hlod, hvis⟩, rfl⟩)
    · exact Or.inr ⟨(cx, cz), ⟨(mem_gridCells _).mpr ⟨h1, h2⟩, hlod, hvis⟩, rfl⟩

/-- Every emitted tile records the min corner and edge length of its cell. -/
theorem tile_corner_of_mem (cfg : QTConfig) (cam : XMFLOAT3) (fr : BoundingFrustum)
    {t : TerrainTile} (ht : t ∈ SelectTiles cfg cam fr) :
    ∃ cx cz, cx < 4 ∧ cz < 4 ∧ cellVisible cfg fr cx cz = true ∧
      t.WorldMinX = cellMinX cfg cx ∧ t.WorldMinZ = cellMinZ cfg cz ∧
      t.WorldSize = cellSize cfg ∧ t.Level = cellLOD cfg cam.x cam.z cx cz ∧
      t.World = tileWorld cfg cx cz := by
  obtain ⟨cx, cz, h1, h2, hvis, hcase⟩ := (mem_SelectTiles cfg cam fr t).mp ht
  refine ⟨cx, cz, h1, h2, hvis, ?_⟩
  rcases hcase with ⟨hlod, rfl⟩ | ⟨hlod, rfl⟩ | ⟨hlod, rfl⟩ <;>
    exact ⟨rfl, rfl, rfl, hlod.symm, rfl⟩

/- ------------------------------------------------------------------ -/
/- C4                                                                  -/
/- ------------------------------------------------------------------ -/

/-- C4: a cell whose vertically extruded AABB is DISJOINT from the frustum is
never emitted; a cell whose AABB is non-disjoint (INTERSECTS or CONTAINS) is
visible under `IsBlockVisible` and always emitted; and when every cell is
culled, `SelectTiles` produces the empty list. -/
theorem C4_frustum_culling (cfg : QTConfig) (cam : XMFLOAT3) (fr : BoundingFrustum)
    (hsize : 0 < cfg.mTerrainSize) :
    (∀ cx cz, cx < 4 → cz < 4 →
      fr.contains (blockBounds cfg (cellMinX cfg cx) (cellMinZ cfg cz)
          (cellMinX cfg cx + cellSize cfg) (cellMinZ cfg cz + cellSize cfg)) =
        ContainmentType.DISJOINT →
      ∀ t ∈ SelectTiles cfg cam fr,
        ¬(t.WorldMinX = cellMinX cfg cx ∧ t.WorldMinZ = cellMinZ cfg cz)) ∧
    (∀ cx cz, cx < 4 → cz < 4 →
      fr.contains (blockBounds cfg (cellMinX cfg cx) (cellMinZ cfg cz)
          (cellMinX cfg cx + cellSize cfg) (cellMinZ cfg cz + cellSize cfg)) ≠
        ContainmentType.DISJOINT →
      cellVisible cfg fr cx cz = true ∧
      ∃ t ∈ SelectTiles cfg cam fr,
        t.WorldMinX = cellMinX cfg cx ∧ t.WorldMinZ = cellMinZ cfg cz ∧
        t.Level = cellLOD cfg cam.x cam.z cx cz) ∧
    ((∀ cx cz, cx < 4 → cz < 4 →
        fr.contains (blockBounds cfg (cellMinX cfg cx) (cellMinZ cfg cz)
            (cellMinX cfg cx + cellSize cfg) (cellMinZ cfg cz + cellSize cfg)) =
          ContainmentType.DISJOINT) →
      SelectTiles cfg cam fr = []) := by
  refine ⟨?_, ?_, ?_⟩
  · rintro cx cz h1 h2 hdisj t ht ⟨hminx, hminz⟩
    obtain ⟨cx', cz', h1', h2', hvis, hx, hz, -, -, -⟩ := tile_corner_of_mem cfg cam fr ht
    have ecx : cx' = cx := cellMinX_inj cfg hsize (by rw [← hx, hminx])
    have ecz : cz' = cz := by
      apply cellMinX_inj cfg hsize
      rw [← cellMinZ_eq_cellMinX, ← cellMinZ_eq_cellMinX, ← hz, hminz]
    subst ecx; subst ecz
    unfold cellVisible IsBlockVisible at hvis
    rw [decide_eq_true_eq] at hvis
    exact hvis hdisj
  · intro cx cz h1 h2 hnd
    have hvis : cellVisible cfg fr cx cz = true := by
      unfold cellVisible IsBlockVisible
      exact decide_eq_true hnd
    refine ⟨hvis, ?_⟩
    rcases cellLOD_cases cfg cam.x cam.z cx cz with h | h | h
    · exact ⟨mkTileL2 cfg cx cz,
        (mem_SelectTiles cfg cam fr _).mpr ⟨cx, cz, h1, h2, hvis, Or.inl ⟨h, rfl⟩⟩,
        rfl, rfl, by rw [h]; rfl⟩
    · exact ⟨mkTileL1 cfg cx cz,
        (mem_SelectTiles cfg cam fr _).mpr ⟨cx, cz, h1, h2, hvis, Or.inr (Or.inl ⟨h, rfl⟩)⟩,
        rfl, rfl, by rw [h]; rfl⟩
    · exact ⟨mkTileL0 cfg cx cz,
        (mem_SelectTiles cfg cam fr _).mpr ⟨cx, cz, h1, h2, hvis, Or.inr (Or.inr ⟨h, rfl⟩)⟩,
        rfl, rfl, by rw [h]; rfl⟩
  · intro hall
    rw [List.eq_nil_iff_forall_not_mem]
    intro t ht
    obtain ⟨cx, cz, h1, h2, hvis, -⟩ := (mem_SelectTiles cfg cam fr t).mp ht
    unfold cellVisible IsBlockVisible at hvis
    rw [decide_eq_true_eq] at hvis
    exact hvis (hall cx cz h1 h2)

/-- Reference configuration: terrain size 512, max height 150 (TerrainApp.cpp
lines 136-137), fovY = pi/4 stand-in, screen height 720. -/
def cfgRef : QTConfig := ⟨512, 150, 1, 720⟩

/-- A frustum whose containment test culls every box. -/
def frNone : BoundingFrustum := ⟨fun _ => ContainmentType.DISJOINT⟩

/-- A frustum whose containment test keeps every box. -/
def frAll : BoundingFrustum := ⟨fun _ => ContainmentType.CONTAINS⟩

/-- Reference camera fixture `(0, 250, -204.8)` from the spec scenario. -/
def camRef : XMFLOAT3 := ⟨0, 250, -1024/5⟩

/-- Witness for C4: with the reference configuration and an all-culling
frustum, `SelectTiles` returns the empty list. -/
theorem C4_frustum_culling_witness :
    (0 : ℚ) < cfgRef.mTerrainSize ∧ SelectTiles cfgRef camRef frNone = [] :=
  ⟨by norm_num [cfgRef],
    (C4_frustum_culling cfgRef camRef frNone (by norm_num [cfgRef])).2.2
      (fun cx cz _ _ => rfl)⟩

/- ------------------------------------------------------------------ -/
/- C3                                                                  -/
/- ------------------------------------------------------------------ -/

/-- Membership of a UV point in a tile's half-open UV sub-rectangle
`[offsetX, offsetX + scaleX) × [offsetY, offsetY + scaleY)`. -/
def inUVRect (t : TerrainTile) (u v : ℚ) : Prop :=
  t.UVOffsetX ≤ u ∧ u < t.UVOffsetX + t.UVScaleX ∧
    t.UVOffsetY ≤ v ∧ v < t.UVOffsetY + t.UVScaleY

/-- A point of `[0,1)` lies in exactly one of the `n` half-open subintervals
of width `1/n`. -/
theorem unique_cell_1d (n : ℕ) (hn : 0 < n) (u : ℚ) (h0 : 0 ≤ u) (h1 : u < 1) :
    ∃! k : ℕ, k < n ∧ (k : ℚ) * (1/n) ≤ u ∧ u < (k : ℚ) * (1/n) + 1/n := by
  have hn' : (0 : ℚ) < n := by exact_mod_cast hn
  have hfl0 : 0 ≤ ⌊u * n⌋ := Int.floor_nonneg.mpr (by positivity)
  have hfllt : ⌊u * n⌋ < (n : ℤ) := by
    rw [Int.floor_lt]
    push_cast
    nlinarith
  have key : ∀ k : ℕ, ((k : ℚ) * (1/n) ≤ u ∧ u < (k : ℚ) * (1/n) + 1/n) ↔
      ((k : ℚ) ≤ u * n ∧ u * n < (k : ℚ) + 1) := by
    intro k
    constructor
    · rintro ⟨a, b⟩
      rw [mul_one_div, div_le_iff₀ hn'] at a
      rw [show (k : ℚ) * (1/n) + 1/n = ((k : ℚ) + 1) / n by ring, lt_div_iff₀ hn'] at b
      exact ⟨a, b⟩
    · rintro ⟨a, b⟩
      constructor
      · rw [mul_one_div, div_le_iff₀ hn']; exact a
      · rw [show (k : ℚ) * (1/n) + 1/n = ((k : ℚ) + 1) / n by ring, lt_div_iff₀ hn']; exact b
  refine ⟨⌊u * n⌋.toNat, ⟨by omega, ?_⟩, ?_⟩
  · rw [key]
    have hcast : ((⌊u * n⌋.toNat : ℕ) : ℚ) = ((⌊u * n⌋ : ℤ) : ℚ) := by
      exact_mod_cast Int.toNat_of_nonneg hfl0
    rw [hcast]
    exact ⟨Int.floor_le _, Int.lt_floor_add_one _⟩
  · intro k' ⟨hk', hb⟩
    rw [key] at hb
    have : ⌊u * n⌋ = (k' : ℤ) := by
      rw [Int.floor_eq_iff]
      constructor
      · exact_mod_cast hb.1
      · push_cast
        exact hb.2
    omega

/-- A point of `[0,1)` lies in exactly one of the two half-open halves. -/
theorem unique_half (u : ℚ) (h0 : 0 ≤ u) (h1 : u < 1) :
    ∃! k : ℕ, k < 2 ∧ (k : ℚ) * (1/2) ≤ u ∧ u < (k : ℚ) * (1/2) + 1/2 := by
  have := unique_cell_1d 2 (by norm_num) u h0 h1
  norm_num at this ⊢
  exact this

/-- A point of `[0,1)` lies in exactly one of the four half-open quarters. -/
theorem unique_quarter (u : ℚ) (h0 : 0 ≤ u) (h1 : u < 1) :
    ∃! k : ℕ, k < 4 ∧ (k : ℚ) * (1/4) ≤ u ∧ u < (k : ℚ) * (1/4) + 1/4 := by
  have := unique_cell_1d 4 (by norm_num) u h0 h1
  norm_num at this ⊢
  exact this

/-- C3: emitted level-2 tiles use UV offset `(0,0)` and scale `(1,1)`; emitted
level-1 tiles for cell `(cx,cz)` use offset `(0.5*(cx mod 2), 0.5*(cz mod 2))`
and scale `(0.5,0.5)`; emitted level-0 tiles use offset `(0.25*cx, 0.25*cz)`
and scale `(0.25,0.25)`; and the UV rectangles of the 4 cells sharing one
coalesced level-1 texture, and of the 16 cells sharing the level-0 texture,
exactly tile `[0,1) × [0,1)` with no gaps or overlaps. -/
theorem C3_uv_subrectangles (cfg : QTConfig) (cam : XMFLOAT3) (fr : BoundingFrustum) :
    (∀ t ∈ SelectTiles cfg cam fr,
      (t.Level = 2 → t.UVOffsetX = 0 ∧ t.UVOffsetY = 0 ∧ t.UVScaleX = 1 ∧ t.UVScaleY = 1) ∧
      (t.Level = 1 → ∃ cx cz, cx < 4 ∧ cz < 4 ∧
        t.WorldMinX = cellMinX cfg cx ∧ t.WorldMinZ = cellMinZ cfg cz ∧
        t.UVOffsetX = ((cx % 2 : ℕ) : ℚ) * (1/2) ∧ t.UVOffsetY = ((cz % 2 : ℕ) : ℚ) * (1/2) ∧
        t.UVScaleX = 1/2 ∧ t.UVScaleY = 1/2) ∧
      (t.Level = 0 → ∃ cx cz, cx < 4 ∧ cz < 4 ∧
        t.WorldMinX = cellMinX cfg cx ∧ t.WorldMinZ = cellMinZ cfg cz ∧
        t.UVOffsetX = ((cx : ℕ) : ℚ) * (1/4) ∧ t.UVOffsetY = ((cz : ℕ) : ℚ) * (1/4) ∧
        t.UVScaleX = 1/4 ∧ t.UVScaleY = 1/4)) ∧
    (∀ bx bz : ℕ, bx < 2 → bz < 2 → ∀ u v : ℚ, 0 ≤ u → u < 1 → 0 ≤ v → v < 1 →
      ∃! c : ℕ × ℕ, c.1 < 4 ∧ c.2 < 4 ∧ c.1 / 2 = bx ∧ c.2 / 2 = bz ∧
        inUVRect (mkTileL1 cfg c.1 c.2) u v) ∧
    (∀ u v : ℚ, 0 ≤ u → u < 1 → 0 ≤ v → v < 1 →
      ∃! c : ℕ × ℕ, c.1 < 4 ∧ c.2 < 4 ∧ inUVRect (mkTileL0 cfg c.1 c.2) u v) := by
  refine ⟨?_, ?_, ?_⟩
  · intro t ht
    obtain ⟨cx, cz, h1, h2, hvis, hcase⟩ := (mem_SelectTiles cfg cam fr t).mp ht
    refine ⟨?_, ?_, ?_⟩
    · intro hlvl
      rcases hcase with ⟨-, rfl⟩ | ⟨-, rfl⟩ | ⟨-, rfl⟩
      · exact ⟨rfl, rfl, rfl, rfl⟩
      · exact absurd hlvl (by simp [mkTileL1])
      · exact absurd hlvl (by simp [mkTileL0])
    · intro hlvl
      rcases hcase with ⟨-, rfl⟩ | ⟨-, rfl⟩ | ⟨-, rfl⟩
      · exact absurd hlvl (by simp [mkTileL2])
      · exact ⟨cx, cz, h1, h2, rfl, rfl, rfl, rfl, rfl, rfl⟩
      · exact absurd hlvl (by simp [mkTileL0])
    · intro hlvl
      rcases hcase with ⟨-, rfl⟩ | ⟨-, rfl⟩ | ⟨-, rfl⟩
      · exact absurd hlvl (by simp [mkTileL2])
      · exact absurd hlvl (by simp [mkTileL1])
      · exact ⟨cx, cz, h1, h2, rfl, rfl, rfl, rfl, rfl, rfl⟩
  · intro bx bz hbx hbz u v h0u h1u h0v h1v
    obtain ⟨jx, ⟨hjx, hjxl, hjxr⟩, hjxu⟩ := unique_half u h0u h1u
    obtain ⟨jz, ⟨hjz, hjzl, hjzr⟩, hjzu⟩ := unique_half v h0v h1v
    refine ⟨(2 * bx + jx, 2 * bz + jz), ⟨by omega, by omega, by omega, by omega, ?_⟩, ?_⟩
    · have ex : (2 * bx + jx) % 2 = jx := by omega
      have ez : (2 * bz + jz) % 2 = jz := by omega
      show ((((2 * bx + jx) % 2 : ℕ) : ℚ) * (1/2) ≤ u ∧
          u < (((2 * bx + jx) % 2 : ℕ) : ℚ) * (1/2) + 1/2 ∧
          (((2 * bz + jz) % 2 : ℕ) : ℚ) * (1/2) ≤ v ∧
          v < (((2 * bz + jz) % 2 : ℕ) : ℚ) * (1/2) + 1/2)
      rw [ex, ez]
      exact ⟨hjxl, hjxr, hjzl, hjzr⟩
    · rintro ⟨cx', cz'⟩ ⟨h4x, h4z, hdx, hdz, hrect⟩
      obtain ⟨r1, r2, r3, r4⟩ := hrect
      have e1 : cx' % 2 = jx := hjxu (cx' % 2) ⟨by omega, r1, r2⟩
      have e2 : cz' % 2 = jz := hjzu (cz' % 2) ⟨by omega, r3, r4⟩
      simp only [Prod.mk.injEq]
      omega
  · intro u v h0u h1u h0v h1v
    obtain ⟨jx, ⟨hjx, hjxl, hjxr⟩, hjxu⟩ := unique_quarter u h0u h1u
    obtain ⟨jz, ⟨hjz, hjzl, hjzr⟩, hjzu⟩ := unique_quarter v h0v h1v
    refine ⟨(jx, jz), ⟨hjx, hjz, hjxl, hjxr, hjzl, hjzr⟩, ?_⟩
    rintro ⟨cx', cz'⟩ ⟨h4x, h4z, hrect⟩
    obtain ⟨r1, r2, r3, r4⟩ := hrect
    have e1 : cx' = jx := hjxu cx' ⟨h4x, r1, r2⟩
    have e2 : cz' = jz := hjzu cz' ⟨h4z, r3, r4⟩
    simp only [Prod.mk.injEq]
    exact ⟨e1, e2⟩

/-- Witness for C3: the level-0 UV tiling applied at the reference
configuration and the concrete UV point `(1/3, 2/3)`. -/
theorem C3_uv_subrectangles_witness :
    ∃! c : ℕ × ℕ, c.1 < 4 ∧ c.2 < 4 ∧ inUVRect (mkTileL0 cfgRef c.1 c.2) (1/3) (2/3) :=
  (C3_uv_subrectangles cfgRef camRef frAll).2.2 (1/3) (2/3)
    (by norm_num) (by norm_num) (by norm_num) (by norm_num)

/- ------------------------------------------------------------------ -/
/- C7                                                                  -/
/- ------------------------------------------------------------------ -/

/-- C7: for every point and every well-formed box, `DistanceToBox` returns 0
exactly when the point lies inside the box (boundary inclusive), it is a lower
bound on the Euclidean distance from the point to every box point, and the
bound is attained at a box point (the clamped point) — i.e. it is the minimum
Euclidean point-to-box distance, `sqrt(dx^2 + dz^2)` of the per-axis
overshoots. -/
theorem C7_distance_to_box (px pz minX minZ maxX maxZ : ℝ)
    (hx : minX ≤ maxX) (hz : minZ ≤ maxZ) :
    (DistanceToBox px pz minX minZ maxX maxZ = 0 ↔
      (minX ≤ px ∧ px ≤ maxX ∧ minZ ≤ pz ∧ pz ≤ maxZ)) ∧
    (∀ qx qz, minX ≤ qx → qx ≤ maxX → minZ ≤ qz → qz ≤ maxZ →
      DistanceToBox px pz minX minZ maxX maxZ ≤ Real.sqrt ((px - qx)^2 + (pz - qz)^2)) ∧
    (∃ qx qz, minX ≤ qx ∧ qx ≤ maxX ∧ minZ ≤ qz ∧ qz ≤ maxZ ∧
      DistanceToBox px pz minX minZ maxX maxZ = Real.sqrt ((px - qx)^2 + (pz - qz)^2)) := by
  unfold DistanceToBox
  dsimp only
  set dx := (if px < minX then minX - px else if px > maxX then px - maxX else 0) with hdx
  set dz := (if pz < minZ then minZ - pz else if pz > maxZ then pz - maxZ else 0) with hdz
  have hdx0 : 0 ≤ dx := by rw [hdx]; split_ifs <;> linarith
  have hdz0 : 0 ≤ dz := by rw [hdz]; split_ifs <;> linarith
  refine ⟨?_, ?_, ?_⟩
  · rw [Real.sqrt_eq_zero']
    constructor
    · intro h
      have hx0 : dx = 0 := by nlinarith
      have hz0 : dz = 0 := by nlinarith
      rw [hdx] at hx0
      rw [hdz] at hz0
      split_ifs at hx0 with h1 h2 <;> split_ifs at hz0 with h3 h4 <;>
        push_neg at * <;> constructor <;> try constructor
      all_goals try constructor
      all_goals linarith
    · rintro ⟨b1, b2, b3, b4⟩
      have hx0 : dx = 0 := by
        rw [hdx, if_neg (not_lt.mpr b1), if_neg (not_lt.mpr b2)]
      have hz0 : dz = 0 := by
        rw [hdz, if_neg (not_lt.mpr b3), if_neg (not_lt.mpr b4)]
      rw [hx0, hz0]
      norm_num
  · intro qx qz b1 b2 b3 b4
    apply Real.sqrt_le_sqrt
    have d1 : dx * dx ≤ (px - qx)^2 := by
      rw [hdx]; split_ifs with h1 h2 <;> nlinarith
    have d2 : dz * dz ≤ (pz - qz)^2 := by
      rw [hdz]; split_ifs with h1 h2 <;> nlinarith
    linarith
  · refine ⟨max minX (min px maxX), max minZ (min pz maxZ),
      le_max_left _ _, max_le hx (min_le_right _ _),
      le_max_left _ _, max_le hz (min_le_right _ _), ?_⟩
    have ex : dx * dx = (px - max minX (min px maxX))^2 := by
      rw [hdx]
      rcases lt_or_le px minX with h1 | h1
      · rw [if_pos h1, min_eq_left (by linarith : px ≤ maxX), max_eq_left (le_of_lt h1)]
        ring
      · rw [if_neg (not_lt.mpr h1)]
        rcases lt_or_le maxX px with h2 | h2
        · rw [if_pos h2, min_eq_right (le_of_lt h2), max_eq_right hx]
          ring
        · rw [if_neg (not_lt.mpr h2), min_eq_left h2, max_eq_right h1]
          ring
    have ez : dz * dz = (pz - max minZ (min pz maxZ))^2 := by
      rw [hdz]
      rcases lt_or_le pz minZ with h1 | h1
      · rw [if_pos h1, min_eq_left (by linarith : pz ≤ maxZ), max_eq_left (le_of_lt h1)]
        ring
      · rw [if_neg (not_lt.mpr h1)]
        rcases lt_or_le maxZ pz with h2 | h2
        · rw [if_pos h2, min_eq_right (le_of_lt h2), max_eq_right hz]
          ring
        · rw [if_neg (not_lt.mpr h2), min_eq_left h2, max_eq_right h1]
          ring
    rw [ex, ez]

/-- Witness for C7 at the point `(3, 0)` and the box `[0,1] × [0,1]`. -/
theorem C7_distance_to_box_witness :
    (0 : ℝ) ≤ 1 ∧
    (DistanceToBox 3 0 0 0 1 1 = 0 ↔
      ((0 : ℝ) ≤ 3 ∧ (3 : ℝ) ≤ 1 ∧ (0 : ℝ) ≤ 0 ∧ (0 : ℝ) ≤ 1)) :=
  ⟨by norm_num, (C7_distance_to_box 3 0 0 0 1 1 (by norm_num) (by norm_num)).1⟩

/- ------------------------------------------------------------------ -/
/- C8                                                                  -/
/- ------------------------------------------------------------------ -/

/-- Three pairwise-exclusive filters of one list together keep at most all of
its elements. -/
theorem length_filter_three_le {α : Type} (p q r : α → Bool) (l : List α)
    (hpq : ∀ a, p a = true → q a = false) (hpr : ∀ a, p a = true → r a = false)
    (hqr : ∀ a, q a = true → r a = false) :
    (l.filter p).length + (l.filter q).length + (l.filter r).length ≤ l.length := by
  induction l with
  | nil => simp
  | cons a t ih =>
    by_cases hp : p a = true
    · have hq := hpq a hp
      have hr := hpr a hp
      simp [List.filter_cons, hp, hq, hr]
      omega
    · rw [Bool.not_eq_true] at hp
      by_cases hq : q a = true
      · have hr := hqr a hq
        simp [List.filter_cons, hp, hq, hr]
        omega
      · rw [Bool.not_eq_true] at hq
        by_cases hr : r a = true
        · simp [List.filter_cons, hp, hq, hr]
          omega
        · rw [Bool.not_eq_true] at hr
          simp [List.filter_cons, hp, hq, hr]
          omega

/-- A cell's LOD routes it into at most one emission pass: the pass guards for
two different levels are mutually exclusive. -/
theorem pass_guards_exclusive (cfg : QTConfig) (camX camZ : ℚ) (fr : BoundingFrustum)
    (m n : ℕ) (hmn : m ≠ n) (c : ℕ × ℕ)
    (h : (decide (cellLOD cfg camX camZ c.1 c.2 = m) && cellVisible cfg fr c.1 c.2) = true) :
    (decide (cellLOD cfg camX camZ c.1 c.2 = n) && cellVisible cfg fr c.1 c.2) = false := by
  simp only [Bool.and_eq_true, decide_eq_true_eq] at h
  have hd : decide (cellLOD cfg camX camZ c.1 c.2 = n) = false := by
    simp only [decide_eq_false_iff_not]
    omega
  rw [hd, Bool.false_and]

/-- `SelectTiles` emits at most 16 tiles: each of the 16 grid cells is kept by
at most one of the three pass filters. -/
theorem SelectTiles_length_le (cfg : QTConfig) (cam : XMFLOAT3) (fr : BoundingFrustum) :
    (SelectTiles cfg cam fr).length ≤ 16 := by
  unfold SelectTiles SelectTilesInto passL2 passL1 passL0
  dsimp only
  rw [List.nil_append]
  simp only [List.length_append, List.length_map]
  have hpq : ∀ c : ℕ × ℕ,
      (decide (cellLOD cfg cam.x cam.z c.1 c.2 = 2) && cellVisible cfg fr c.1 c.2) = true →
      (decide (cellLOD cfg cam.x cam.z c.1 c.2 = 1) && cellVisible cfg fr c.1 c.2) = false :=
    fun c => pass_guards_exclusive cfg cam.x cam.z fr 2 1 (by norm_num) c
  have hpr : ∀ c : ℕ × ℕ,
      (decide (cellLOD cfg cam.x cam.z c.1 c.2 = 2) && cellVisible cfg fr c.1 c.2) = true →
      (decide (cellLOD cfg cam.x cam.z c.1 c.2 = 0) && cellVisible cfg fr c.1 c.2) = false :=
    fun c => pass_guards_exclusive cfg cam.x cam.z fr 2 0 (by norm_num) c
  have hqr : ∀ c : ℕ × ℕ,
      (decide (cellLOD cfg cam.x cam.z c.1 c.2 = 1) && cellVisible cfg fr c.1 c.2) = true →
      (decide (cellLOD cfg cam.x cam.z c.1 c.2 = 0) && cellVisible cfg fr c.1 c.2) = false :=
    fun c => pass_guards_exclusive cfg cam.x cam.z fr 1 0 (by norm_num) c
  have h := length_filter_three_le _ _ _ gridCells hpq hpr hqr
  have hg : gridCells.length = 16 := by decide
  omega

/-- Any tile of an emission pass carries the corner of a cell whose LOD is the
pass level. -/
theorem pass_tile_cell (cfg : QTConfig) (cam : XMFLOAT3) (fr : BoundingFrustum)
    (lv : ℕ) (mk : ℕ → ℕ → TerrainTile) (t : TerrainTile)
    (hmk : ∀ cx cz, (mk cx cz).WorldMinX = cellMinX cfg cx ∧
      (mk cx cz).WorldMinZ = cellMinZ cfg cz)
    (ht : t ∈ (gridCells.filter fun c =>
        decide (cellLOD cfg cam.x cam.z c.1 c.2 = lv) && cellVisible cfg fr c.1 c.2).map
      (fun c => mk c.1 c.2)) :
    ∃ cx cz, cellLOD cfg cam.x cam.z cx cz = lv ∧
      t.WorldMinX = cellMinX cfg cx ∧ t.WorldMinZ = cellMinZ cfg cz := by
  simp only [List.mem_map, List.mem_filter, Bool.and_eq_true, decide_eq_true_eq] at ht
  obtain ⟨c, ⟨hc, hlod, hvis⟩, rfl⟩ := ht
  exact ⟨c.1, c.2, hlod, (hmk c.1 c.2).1, (hmk c.1 c.2).2⟩

/-- Tiles coming from cells of different LOD never share a cell corner. -/
theorem cross_pass_distinct (cfg : QTConfig) (cam : XMFLOAT3) (hsize : 0 < cfg.mTerrainSize)
    (lv1 lv2 : ℕ) (hne : lv1 ≠ lv2) (t1 t2 : TerrainTile)
    (h1 : ∃ cx cz, cellLOD cfg cam.x cam.z cx cz = lv1 ∧
      t1.WorldMinX = cellMinX cfg cx ∧ t1.WorldMinZ = cellMinZ cfg cz)
    (h2 : ∃ cx cz, cellLOD cfg cam.x cam.z cx cz = lv2 ∧
      t2.WorldMinX = cellMinX cfg cx ∧ t2.WorldMinZ = cellMinZ cfg cz) :
    ¬(t1.WorldMinX = t2.WorldMinX ∧ t1.WorldMinZ = t2.WorldMinZ) := by
  obtain ⟨cx1, cz1, hl1, e1x, e1z⟩ := h1
  obtain ⟨cx2, cz2, hl2, e2x, e2z⟩ := h2
  rintro ⟨q1, q2⟩
  have ex : cx1 = cx2 := cellMinX_inj cfg hsize (by rw [← e1x, q1, e2x])
  have ez : cz1 = cz2 := by
    apply cellMinX_inj cfg hsize
    rw [← cellMinZ_eq_cellMinX, ← cellMinZ_eq_cellMinX, ← e1z, q2, e2z]
  subst ex
  subst ez
  omega

/-- No two tiles of one `SelectTiles` output share a cell corner: each grid
cell is emitted at most once per frame. -/
theorem SelectTiles_pairwise_cells (cfg : QTConfig) (cam : XMFLOAT3) (fr : BoundingFrustum)
    (hsize : 0 < cfg.mTerrainSize) :
    (SelectTiles cfg cam fr).Pairwise
      (fun t1 t2 => ¬(t1.WorldMinX = t2.WorldMinX ∧ t1.WorldMinZ = t2.WorldMinZ)) := by
  have hnodup : gridCells.Nodup := by decide
  have hcell : ∀ c1 c2 : ℕ × ℕ,
      cellMinX cfg c1.1 = cellMinX cfg c2.1 → cellMinZ cfg c1.2 = cellMinZ cfg c2.2 →
      c1 = c2 := by
    rintro ⟨a1, b1⟩ ⟨a2, b2⟩ e1 e2
    have ex : a1 = a2 := cellMinX_inj cfg hsize e1
    have ez : b1 = b2 := by
      apply cellMinX_inj cfg hsize
      rw [← cellMinZ_eq_cellMinX, ← cellMinZ_eq_cellMinX]
      exact e2
    rw [ex, ez]
  have hpass : ∀ (mk : ℕ → ℕ → TerrainTile) (p : ℕ × ℕ → Bool),
      (∀ cx cz, (mk cx cz).WorldMinX = cellMinX cfg cx ∧
        (mk cx cz).WorldMinZ = cellMinZ cfg cz) →
      ((gridCells.filter p).map (fun c => mk c.1 c.2)).Pairwise
        (fun t1 t2 => ¬(t1.WorldMinX = t2.WorldMinX ∧ t1.WorldMinZ = t2.WorldMinZ)) := by
    intro mk p hmk
    rw [List.pairwise_map]
    refine (hnodup.filter p).imp ?_
    intro c1 c2 hne
    rintro ⟨e1, e2⟩
    apply hne
    apply hcell
    · rw [← (hmk c1.1 c1.2).1, ← (hmk c2.1 c2.2).1]
      exact e1
    · rw [← (hmk c1.1 c1.2).2, ← (hmk c2.1 c2.2).2]
      exact e2
  unfold SelectTiles SelectTilesInto passL2 passL1 passL0
  dsimp only
  rw [List.nil_append, List.pairwise_append, List.pairwise_append]
  refine ⟨⟨hpass _ _ (fun cx cz => ⟨rfl, rfl⟩), hpass _ _ (fun cx cz => ⟨rfl, rfl⟩), ?_⟩,
    hpass _ _ (fun cx cz => ⟨rfl, rfl⟩), ?_⟩
  · intro t1 h1 t2 h2
    exact cross_pass_distinct cfg cam hsize 2 1 (by norm_num) t1 t2
      (pass_tile_cell cfg cam fr 2 _ t1 (fun cx cz => ⟨rfl, rfl⟩) h1)
      (pass_tile_cell cfg cam fr 1 _ t2 (fun cx cz => ⟨rfl, rfl⟩) h2)
  · intro t1 h1 t2 h2
    rcases List.mem_append.mp h1 with h1' | h1'
    · exact cross_pass_distinct cfg cam hsize 2 0 (by norm_num) t1 t2
        (pass_tile_cell cfg cam fr 2 _ t1 (fun cx cz => ⟨rfl, rfl⟩) h1')
        (pass_tile_cell cfg cam fr 0 _ t2 (fun cx cz => ⟨rfl, rfl⟩) h2)
    · exact cross_pass_distinct cfg cam hsize 1 0 (by norm_num) t1 t2
        (pass_tile_cell cfg cam fr 1 _ t1 (fun cx cz => ⟨rfl, rfl⟩) h1')
        (pass_tile_cell cfg cam fr 0 _ t2 (fun cx cz => ⟨rfl, rfl⟩) h2)

/-- C8: `SelectTiles` emits at most one tile per grid cell (no two output
tiles share a cell corner), hence at most 16 tiles per frame; the caller's
instance upload copies at most the first 64 list entries in list order, which
here means all of them. -/
theorem C8_capacity_bound (cfg : QTConfig) (cam : XMFLOAT3) (fr : BoundingFrustum)
    (hsize : 0 < cfg.mTerrainSize) :
    (SelectTiles cfg cam fr).Pairwise
      (fun t1 t2 => ¬(t1.WorldMinX = t2.WorldMinX ∧ t1.WorldMinZ = t2.WorldMinZ)) ∧
    (SelectTiles cfg cam fr).length ≤ 16 ∧
    (∀ l : List TerrainTile, uploadInstances l = (l.take 64).map tileToInstance) ∧
    uploadInstances (SelectTiles cfg cam fr) = (SelectTiles cfg cam fr).map tileToInstance := by
  refine ⟨SelectTiles_pairwise_cells cfg cam fr hsize, SelectTiles_length_le cfg cam fr,
    fun l => rfl, ?_⟩
  unfold uploadInstances
  rw [List.take_of_length_le (le_trans (SelectTiles_length_le cfg cam fr) (by norm_num))]

/-- Witness for C8 at the reference configuration, reference camera and an
all-keeping frustum. -/
theorem C8_capacity_bound_witness :
    (0 : ℚ) < cfgRef.mTerrainSize ∧ (SelectTiles cfgRef camRef frAll).length ≤ 16 :=
  ⟨by norm_num [cfgRef],
    (C8_capacity_bound cfgRef camRef frAll (by norm_num [cfgRef])).2.1⟩

/- ------------------------------------------------------------------ -/
/- C10                                                                 -/
/- ------------------------------------------------------------------ -/

/-- The half-open world-space footprint square of a tile. -/
def tileFootprint (t : TerrainTile) : Set (ℚ × ℚ) :=
  {p | t.WorldMinX ≤ p.1 ∧ p.1 < t.WorldMinX + t.WorldSize ∧
    t.WorldMinZ ≤ p.2 ∧ p.2 < t.WorldMinZ + t.WorldSize}

/-- `cellSize` rewritten with the literal grid size. -/
theorem cellSize_eq (cfg : QTConfig) : cellSize cfg = cfg.mTerrainSize / 4 := by
  unfold cellSize GRID_SIZE
  norm_num

/-- No point lies in the half-open cell squares of two distinct cells. -/
theorem cell_squares_disjoint (cfg : QTConfig) (hsize : 0 < cfg.mTerrainSize)
    {cx1 cz1 cx2 cz2 : ℕ} (hne : ¬(cx1 = cx2 ∧ cz1 = cz2)) (x z : ℚ)
    (h1 : cellMinX cfg cx1 ≤ x ∧ x < cellMinX cfg cx1 + cellSize cfg ∧
      cellMinZ cfg cz1 ≤ z ∧ z < cellMinZ cfg cz1 + cellSize cfg)
    (h2 : cellMinX cfg cx2 ≤ x ∧ x < cellMinX cfg cx2 + cellSize cfg ∧
      cellMinZ cfg cz2 ≤ z ∧ z < cellMinZ cfg cz2 + cellSize cfg) : False := by
  have hcs := cellSize_pos cfg hsize
  obtain ⟨a1, a2, a3, a4⟩ := h1
  obtain ⟨b1, b2, b3, b4⟩ := h2
  simp only [cellMinX, cellMinZ] at a1 a2 a3 a4 b1 b2 b3 b4
  apply hne
  constructor
  · have l1 : (cx1 : ℚ) < (cx2 : ℚ) + 1 := by
      have hx := lt_of_le_of_lt a1 b2
      have hmul : (cx1 : ℚ) * cellSize cfg < ((cx2 : ℚ) + 1) * cellSize cfg := by nlinarith
      exact lt_of_mul_lt_mul_right hmul (le_of_lt hcs)
    have l2 : (cx2 : ℚ) < (cx1 : ℚ) + 1 := by
      have hx := lt_of_le_of_lt b1 a2
      have hmul : (cx2 : ℚ) * cellSize cfg < ((cx1 : ℚ) + 1) * cellSize cfg := by nlinarith
      exact lt_of_mul_lt_mul_right hmul (le_of_lt hcs)
    have l1' : cx1 < cx2 + 1 := by exact_mod_cast l1
    have l2' : cx2 < cx1 + 1 := by exact_mod_cast l2
    omega
  · have l1 : (cz1 : ℚ) < (cz2 : ℚ) + 1 := by
      have hx := lt_of_le_of_lt a3 b4
      have hmul : (cz1 : ℚ) * cellSize cfg < ((cz2 : ℚ) + 1) * cellSize cfg := by nlinarith
      exact lt_of_mul_lt_mul_right hmul (le_of_lt hcs)
    have l2 : (cz2 : ℚ) < (cz1 : ℚ) + 1 := by
      have hx := lt_of_le_of_lt b3 a4
      have hmul : (cz2 : ℚ) * cellSize cfg < ((cz1 : ℚ) + 1) * cellSize cfg := by nlinarith
      exact lt_of_mul_lt_mul_right hmul (le_of_lt hcs)
    have l1' : cz1 < cz2 + 1 := by exact_mod_cast l1
    have l2' : cz2 < cz1 + 1 := by exact_mod_cast l2
    omega

/-- The footprints of the tiles of one frame are pairwise disjoint. -/
theorem SelectTiles_footprints_disjoint (cfg : QTConfig) (cam : XMFLOAT3)
    (fr : BoundingFrustum) (hsize : 0 < cfg.mTerrainSize) :
    (SelectTiles cfg cam fr).Pairwise
      (fun t1 t2 => Disjoint (tileFootprint t1) (tileFootprint t2)) := by
  refine (SelectTiles_pairwise_cells cfg cam fr hsize).imp_of_mem ?_
  intro t1 t2 m1 m2 hR
  rw [Set.disjoint_left]
  rintro ⟨x, z⟩ hp1 hp2
  obtain ⟨cx1, cz1, h41, h42, hv1, e1x, e1z, e1s, e1l, e1w⟩ := tile_corner_of_mem cfg cam fr m1
  obtain ⟨cx2, cz2, h43, h44, hv2, e2x, e2z, e2s, e2l, e2w⟩ := tile_corner_of_mem cfg cam fr m2
  obtain ⟨p1, p2, p3, p4⟩ := hp1
  obtain ⟨q1, q2, q3, q4⟩ := hp2
  rw [e1x] at p1 p2
  rw [e1z] at p3 p4
  rw [e1s] at p2 p4
  rw [e2x] at q1 q2
  rw [e2z] at q3 q4
  rw [e2s] at q2 q4
  refine cell_squares_disjoint cfg hsize ?_ x z ⟨p1, p2, p3, p4⟩ ⟨q1, q2, q3, q4⟩
  rintro ⟨rfl, rfl⟩
  exact hR ⟨by rw [e1x, e2x], by rw [e1z, e2z]⟩

/-- Three filters whose guards hold for exactly one of the three predicates on
every element together keep exactly the whole list. -/
theorem length_filter_three_eq {α : Type} (p q r : α → Bool) (l : List α)
    (h : ∀ a ∈ l,
      (p a = true ∧ q a = false ∧ r a = false) ∨
      (p a = false ∧ q a = true ∧ r a = false) ∨
      (p a = false ∧ q a = false ∧ r a = true)) :
    (l.filter p).length + (l.filter q).length + (l.filter r).length = l.length := by
  induction l with
  | nil => simp
  | cons a t ih =>
    have ht := ih (fun b hb => h b (List.mem_cons_of_mem a hb))
    obtain ⟨hp, hq, hr⟩ | ⟨hp, hq, hr⟩ | ⟨hp, hq, hr⟩ := h a (List.mem_cons_self a t)
    all_goals
      simp [List.filter_cons, hp, hq, hr]
      omega

/-- Every coordinate of the terrain's half-open extent lies in exactly one of
the four cell columns. -/
theorem cell_interval_cover (cfg : QTConfig) (hsize : 0 < cfg.mTerrainSize)
    (x : ℚ) (hx1 : -(halfSize cfg) ≤ x) (hx2 : x < halfSize cfg) :
    ∃ k : ℕ, k < 4 ∧ cellMinX cfg k ≤ x ∧ x < cellMinX cfg k + cellSize cfg := by
  have hS : (0 : ℚ) < cfg.mTerrainSize := hsize
  unfold halfSize at hx1 hx2
  have h0u : 0 ≤ (x + cfg.mTerrainSize * (1/2)) / cfg.mTerrainSize :=
    div_nonneg (by linarith) hS.le
  have h1u : (x + cfg.mTerrainSize * (1/2)) / cfg.mTerrainSize < 1 :=
    (div_lt_one hS).mpr (by linarith)
  obtain ⟨k, ⟨hk4, hkl, hkr⟩, -⟩ := unique_quarter _ h0u h1u
  have hkl' : (k : ℚ) * (1/4) * cfg.mTerrainSize ≤ x + cfg.mTerrainSize * (1/2) :=
    (le_div_iff₀ hS).mp hkl
  have hkr' : x + cfg.mTerrainSize * (1/2) < ((k : ℚ) * (1/4) + 1/4) * cfg.mTerrainSize :=
    (div_lt_iff₀ hS).mp hkr
  refine ⟨k, hk4, ?_, ?_⟩
  · unfold cellMinX halfSize
    rw [cellSize_eq]
    nlinarith
  · unfold cellMinX halfSize
    rw [cellSize_eq]
    nlinarith

/-- When every cell passes the visibility test, `SelectTiles` emits all 16
cells and the footprints exactly cover the half-open terrain square. -/
theorem SelectTiles_covers (cfg : QTConfig) (cam : XMFLOAT3) (fr : BoundingFrustum)
    (hsize : 0 < cfg.mTerrainSize)
    (hvis : ∀ cx cz, cx < 4 → cz < 4 → cellVisible cfg fr cx cz = true) :
    (SelectTiles cfg cam fr).length = 16 ∧
    ∀ p : ℚ × ℚ,
      (-(halfSize cfg) ≤ p.1 ∧ p.1 < halfSize cfg ∧
        -(halfSize cfg) ≤ p.2 ∧ p.2 < halfSize cfg) ↔
      ∃ t ∈ SelectTiles cfg cam fr, p ∈ tileFootprint t := by
  constructor
  · unfold SelectTiles SelectTilesInto passL2 passL1 passL0
    dsimp only
    rw [List.nil_append]
    simp only [List.length_append, List.length_map]
    have hone : ∀ c ∈ gridCells,
        ((decide (cellLOD cfg cam.x cam.z c.1 c.2 = 2) && cellVisible cfg fr c.1 c.2) = true ∧
          (decide (cellLOD cfg cam.x cam.z c.1 c.2 = 1) && cellVisible cfg fr c.1 c.2) = false ∧
          (decide (cellLOD cfg cam.x cam.z c.1 c.2 = 0) && cellVisible cfg fr c.1 c.2) = false) ∨
        ((decide (cellLOD cfg cam.x cam.z c.1 c.2 = 2) && cellVisible cfg fr c.1 c.2) = false ∧
          (decide (cellLOD cfg cam.x cam.z c.1 c.2 = 1) && cellVisible cfg fr c.1 c.2) = true ∧
          (decide (cellLOD cfg cam.x cam.z c.1 c.2 = 0) && cellVisible cfg fr c.1 c.2) = false) ∨
        ((decide (cellLOD cfg cam.x cam.z c.1 c.2 = 2) && cellVisible cfg fr c.1 c.2) = false ∧
          (decide (cellLOD cfg cam.x cam.z c.1 c.2 = 1) && cellVisible cfg fr c.1 c.2) = false ∧
          (decide (cellLOD cfg cam.x cam.z c.1 c.2 = 0) && cellVisible cfg fr c.1 c.2) = true) := by
      intro c hc
      obtain ⟨h1, h2⟩ := (mem_gridCells c).mp hc
      have hv : cellVisible cfg fr c.1 c.2 = true := hvis c.1 c.2 h1 h2
      rcases cellLOD_cases cfg cam.x cam.z c.1 c.2 with hL | hL | hL
      · left
        have hg : (decide (cellLOD cfg cam.x cam.z c.1 c.2 = 2) &&
            cellVisible cfg fr c.1 c.2) = true := by
          rw [Bool.and_eq_true]
          exact ⟨decide_eq_true hL, hv⟩
        exact ⟨hg, pass_guards_exclusive cfg cam.x cam.z fr 2 1 (by norm_num) c hg,
          pass_guards_exclusive cfg cam.x cam.z fr 2 0 (by norm_num) c hg⟩
      · right; left
        have hg : (decide (cellLOD cfg cam.x cam.z c.1 c.2 = 1) &&
            cellVisible cfg fr c.1 c.2) = true := by
          rw [Bool.and_eq_true]
          exact ⟨decide_eq_true hL, hv⟩
        exact ⟨pass_guards_exclusive cfg cam.x cam.z fr 1 2 (by norm_num) c hg, hg,
          pass_guards_exclusive cfg cam.x cam.z fr 1 0 (by norm_num) c hg⟩
      · right; right
        have hg : (decide (cellLOD cfg cam.x cam.z c.1 c.2 = 0) &&
            cellVisible cfg fr c.1 c.2) = true := by
          rw [Bool.and_eq_true]
          exact ⟨decide_eq_true hL, hv⟩
        exact ⟨pass_guards_exclusive cfg cam.x cam.z fr 0 2 (by norm_num) c hg,
          pass_guards_exclusive cfg cam.x cam.z fr 0 1 (by norm_num) c hg, hg⟩
    have h := length_filter_three_eq _ _ _ gridCells hone
    have hg : gridCells.length = 16 := by decide
    omega
  · intro p
    constructor
    · rintro ⟨hp1, hp2, hp3, hp4⟩
      obtain ⟨kx, hkx4, hkxl, hkxr⟩ := cell_interval_cover cfg hsize p.1 hp1 hp2
      obtain ⟨kz, hkz4, hkzl, hkzr⟩ := cell_interval_cover cfg hsize p.2 hp3 hp4
      have hv : cellVisible cfg fr kx kz = true := hvis kx kz hkx4 hkz4
      rcases cellLOD_cases cfg cam.x cam.z kx kz with hL | hL | hL
      · exact ⟨mkTileL2 cfg kx kz,
          (mem_SelectTiles cfg cam fr _).mpr ⟨kx, kz, hkx4, hkz4, hv, Or.inl ⟨hL, rfl⟩⟩,
          ⟨hkxl, hkxr, hkzl, hkzr⟩⟩
      · exact ⟨mkTileL1 cfg kx kz,
          (mem_SelectTiles cfg cam fr _).mpr ⟨kx, kz, hkx4, hkz4, hv, Or.inr (Or.inl ⟨hL, rfl⟩)⟩,
          ⟨hkxl, hkxr, hkzl, hkzr⟩⟩
      · exact ⟨mkTileL0 cfg kx kz,
          (mem_SelectTiles cfg cam fr _).mpr ⟨kx, kz, hkx4, hkz4, hv, Or.inr (Or.inr ⟨hL, rfl⟩)⟩,
          ⟨hkxl, hkxr, hkzl, hkzr⟩⟩
    · rintro ⟨t, ht, hp1, hp2, hp3, hp4⟩
      obtain ⟨cx, cz, h41, h42, hv, ex, ez, es, -, -⟩ := tile_corner_of_mem cfg cam fr ht
      rw [ex] at hp1 hp2
      rw [ez] at hp3 hp4
      rw [es] at hp2 hp4
      have hcx : (cx : ℚ) ≤ 3 := by exact_mod_cast Nat.lt_succ_iff.mp h41
      have hcz : (cz : ℚ) ≤ 3 := by exact_mod_cast Nat.lt_succ_iff.mp h42
      have hcx0 : (0 : ℚ) ≤ (cx : ℚ) := Nat.cast_nonneg cx
      have hcz0 : (0 : ℚ) ≤ (cz : ℚ) := Nat.cast_nonneg cz
      simp only [cellMinX, cellMinZ, halfSize] at hp1 hp2 hp3 hp4 ⊢
      rw [cellSize_eq] at hp1 hp2 hp3 hp4
      refine ⟨by nlinarith, by nlinarith, by nlinarith, by nlinarith⟩

/-- C10: every emitted tile has `WorldSize = terrainSize/4` and the min corner
of its own grid cell, with `World` the transpose of scaling by the cell size
followed by translation to that corner; the footprints of one frame's tiles
are pairwise disjoint cell squares, and when no cell is culled the 16
footprints exactly partition the half-open terrain square. -/
theorem C10_tile_world_and_footprints (cfg : QTConfig) (cam : XMFLOAT3)
    (fr : BoundingFrustum) (hsize : 0 < cfg.mTerrainSize) :
    (∀ t ∈ SelectTiles cfg cam fr,
      t.WorldSize = cfg.mTerrainSize / 4 ∧
      ∃ cx cz : ℕ, cx < 4 ∧ cz < 4 ∧
        t.WorldMinX = -(cfg.mTerrainSize / 2) + (cx : ℚ) * (cfg.mTerrainSize / 4) ∧
        t.WorldMinZ = -(cfg.mTerrainSize / 2) + (cz : ℚ) * (cfg.mTerrainSize / 4) ∧
        t.World = matTranspose (matMul (XMMatrixScaling (cellSize cfg) 1 (cellSize cfg))
          (XMMatrixTranslation (cellMinX cfg cx) 0 (cellMinZ cfg cz)))) ∧
    (SelectTiles cfg cam fr).Pairwise
      (fun t1 t2 => Disjoint (tileFootprint t1) (tileFootprint t2)) ∧
    ((∀ cx cz, cx < 4 → cz < 4 → cellVisible cfg fr cx cz = true) →
      (SelectTiles cfg cam fr).length = 16 ∧
      ∀ p : ℚ × ℚ,
        (-(halfSize cfg) ≤ p.1 ∧ p.1 < halfSize cfg ∧
          -(halfSize cfg) ≤ p.2 ∧ p.2 < halfSize cfg) ↔
        ∃ t ∈ SelectTiles cfg cam fr, p ∈ tileFootprint t) := by
  refine ⟨?_, SelectTiles_footprints_disjoint cfg cam fr hsize,
    fun hvis => SelectTiles_covers cfg cam fr hsize hvis⟩
  intro t ht
  obtain ⟨cx, cz, h41, h42, hv, ex, ez, es, -, ew⟩ := tile_corner_of_mem cfg cam fr ht
  refine ⟨by rw [es, cellSize_eq], cx, cz, h41, h42, ?_, ?_, by rw [ew]; rfl⟩
  · rw [ex]
    unfold cellMinX halfSize
    rw [cellSize_eq]
    ring
  · rw [ez]
    unfold cellMinZ halfSize
    rw [cellSize_eq]
    ring

/-- Witness for C10: with the reference configuration and an all-keeping
frustum, all 16 cells are emitted. -/
theorem C10_tile_world_and_footprints_witness :
    (0 : ℚ) < cfgRef.mTerrainSize ∧ (SelectTiles cfgRef camRef frAll).length = 16 :=
  ⟨by norm_num [cfgRef],
    ((C10_tile_world_and_footprints cfgRef camRef frAll (by norm_num [cfgRef])).2.2
      (fun cx cz _ _ => rfl)).1⟩

/- ------------------------------------------------------------------ -/
/- C9                                                                  -/
/- ------------------------------------------------------------------ -/

/-- `TerrainVertex` of TerrainApp.cpp: position (`Pos`) and texture
coordinates (`TexC`), floats as rationals, split into components. -/
structure TerrainVertex where
  PosX : ℚ
  PosY : ℚ
  PosZ : ℚ
  TexU : ℚ
  TexV : ℚ
deriving DecidableEq

/-- `step = 1.0f / (gridSize - 1)` (TerrainApp.cpp line 813). -/
def gridStep (g : ℕ) : ℚ := 1 / ((g : ℚ) - 1)

/-- `vertexCount = gridSize*gridSize + gridSize*4` (TerrainApp.cpp lines
816-819): main grid plus four skirt strips. -/
def terrainVertexCount (g : ℕ) : ℕ := g * g + g * 4

/-- The vertex array written by `TerrainApp::BuildTerrainGeometry`
(TerrainApp.cpp lines 829-873), as a function of vertex index: indices
`[0, g*g)` hold the main grid (vertex `i` at grid position `(i % g, i / g)`
with `Y = 0`), then four skirt strips of `g` vertices each — bottom `z=0`,
top `z=1`, left `x=0`, right `x=1` — duplicating the edge XZ/UV at the
sentinel `Y = -1`. Every index is written exactly once by the source loops. -/
def terrainVertexAt (g : ℕ) (i : ℕ) : TerrainVertex :=
  let s := gridStep g
  if i < g * g then
    { PosX := ((i % g : ℕ) : ℚ) * s, PosY := 0, PosZ := ((i / g : ℕ) : ℚ) * s,
      TexU := ((i % g : ℕ) : ℚ) * s, TexV := ((i / g : ℕ) : ℚ) * s }
  else if i < g * g + g then
    { PosX := ((i - g * g : ℕ) : ℚ) * s, PosY := -1, PosZ := 0,
      TexU := ((i - g * g : ℕ) : ℚ) * s, TexV := 0 }
  else if i < g * g + 2 * g then
    { PosX := ((i - (g * g + g) : ℕ) : ℚ) * s, PosY := -1, PosZ := 1,
      TexU := ((i - (g * g + g) : ℕ) : ℚ) * s, TexV := 1 }
  else if i < g * g + 3 * g then
    { PosX := 0, PosY := -1, PosZ := ((i - (g * g + 2 * g) : ℕ) : ℚ) * s,
      TexU := 0, TexV := ((i - (g * g + 2 * g) : ℕ) : ℚ) * s }
  else
    { PosX := 1, PosY := -1, PosZ := ((i - (g * g + 3 * g) : ℕ) : ℚ) * s,
      TexU := 1, TexV := ((i - (g * g + 3 * g) : ℕ) : ℚ) * s }

/-- A main-grid vertex and a skirt vertex agree on XZ and UV, and the skirt
vertex carries the sentinel `Y = -1`. -/
def skirtMatches (g mi si : ℕ) : Prop :=
  (terrainVertexAt g mi).PosX = (terrainVertexAt g si).PosX ∧
  (terrainVertexAt g mi).PosZ = (terrainVertexAt g si).PosZ ∧
  (terrainVertexAt g mi).TexU = (terrainVertexAt g si).TexU ∧
  (terrainVertexAt g mi).TexV = (terrainVertexAt g si).TexV ∧
  (terrainVertexAt g si).PosY = -1

/-- Evaluation of a main-grid vertex at grid position `(xx, zz)`. -/
theorem terrainVertexAt_main (g xx zz : ℕ) (hx : xx < g) (hz : zz < g) :
    terrainVertexAt g (zz * g + xx) =
      { PosX := (xx : ℚ) * gridStep g, PosY := 0, PosZ := (zz : ℚ) * gridStep g,
        TexU := (xx : ℚ) * gridStep g, TexV := (zz : ℚ) * gridStep g } := by
  unfold terrainVertexAt
  have h1 : zz * g + xx < (zz + 1) * g := by
    rw [Nat.succ_mul]
    omega
  have h2 : (zz + 1) * g ≤ g * g := Nat.mul_le_mul_right g (by omega)
  rw [if_pos (by omega)]
  have hmod : (zz * g + xx) % g = xx := by
    rw [Nat.add_comm, Nat.add_mul_mod_self_right]
    exact Nat.mod_eq_of_lt hx
  have hdiv : (zz * g + xx) / g = zz := by
    rw [Nat.add_comm, Nat.add_mul_div_right _ _ (by omega : 0 < g), Nat.div_eq_of_lt hx]
    omega
  rw [hmod, hdiv]

/-- Evaluation of a bottom-edge skirt vertex. -/
theorem terrainVertexAt_bottom (g xx : ℕ) (hx : xx < g) :
    terrainVertexAt g (g * g + xx) =
      { PosX := (xx : ℚ) * gridStep g, PosY := -1, PosZ := 0,
        TexU := (xx : ℚ) * gridStep g, TexV := 0 } := by
  unfold terrainVertexAt
  rw [if_neg (by omega), if_pos (by omega)]
  have h : g * g + xx - g * g = xx := by omega
  rw [h]

/-- Evaluation of a top-edge skirt vertex. -/
theorem terrainVertexAt_top (g xx : ℕ) (hx : xx < g) :
    terrainVertexAt g (g * g + g + xx) =
      { PosX := (xx : ℚ) * gridStep g, PosY := -1, PosZ := 1,
        TexU := (xx : ℚ) * gridStep g, TexV := 1 } := by
  unfold terrainVertexAt
  rw [if_neg (by omega), if_neg (by omega), if_pos (by omega)]
  have h : g * g + g + xx - (g * g + g) = xx := by omega
  rw [h]

/-- Evaluation of a left-edge skirt vertex. -/
theorem terrainVertexAt_left (g zz : ℕ) (hz : zz < g) :
    terrainVertexAt g (g * g + 2 * g + zz) =
      { PosX := 0, PosY := -1, PosZ := (zz : ℚ) * gridStep g,
        TexU := 0, TexV := (zz : ℚ) * gridStep g } := by
  unfold terrainVertexAt
  rw [if_neg (by omega), if_neg (by omega), if_neg (by omega), if_pos (by omega)]
  have h : g * g + 2 * g + zz - (g * g + 2 * g) = zz := by omega
  rw [h]

/-- Evaluation of a right-edge skirt vertex. -/
theorem terrainVertexAt_right (g zz : ℕ) (hz : zz < g) :
    terrainVertexAt g (g * g + 3 * g + zz) =
      { PosX := 1, PosY := -1, PosZ := (zz : ℚ) * gridStep g,
        TexU := 1, TexV := (zz : ℚ) * gridStep g } := by
  unfold terrainVertexAt
  have hno : ¬(g * g + 3 * g + zz < g * g + 3 * g) := by omega
  rw [if_neg (by omega), if_neg (by omega), if_neg (by omega), if_neg hno]
  have h : g * g + 3 * g + zz - (g * g + 3 * g) = zz := by omega
  rw [h]

/-- For `g ≥ 2`, the last grid line sits exactly at coordinate 1. -/
theorem last_line_at_one (g : ℕ) (hg : 2 ≤ g) : ((g - 1 : ℕ) : ℚ) * gridStep g = 1 := by
  unfold gridStep
  have h1 : ((g - 1 : ℕ) : ℚ) = (g : ℚ) - 1 := by
    have hle : (1 : ℕ) ≤ g := by omega
    push_cast [Nat.cast_sub hle]
    ring
  have h2 : (g : ℚ) - 1 ≠ 0 := by
    have : (2 : ℚ) ≤ (g : ℚ) := by exact_mod_cast hg
    intro habs
    rw [sub_eq_zero] at habs
    rw [habs] at this
    norm_num at this
  rw [h1]
  field_simp

/-- C9: in the mesh built by `BuildTerrainGeometry` with grid size `g ≥ 2`
(reference 65), for each of the four tile edges, every boundary vertex of the
main `g × g` grid has a corresponding skirt vertex with identical X and Z
position and identical UV coordinates, and with `Y` equal to the sentinel
`-1`: bottom edge vertex `x` matches skirt index `g*g + x`, top edge vertex
matches `g*g + g + x`, left edge vertex `z` matches `g*g + 2*g + z`, right
edge vertex matches `g*g + 3*g + z`. -/
theorem C9_skirt_seam_coverage (g x z : ℕ) (hg : 2 ≤ g) (hx : x < g) (hz : z < g) :
    skirtMatches g x (g * g + x) ∧
    skirtMatches g ((g - 1) * g + x) (g * g + g + x) ∧
    skirtMatches g (z * g) (g * g + 2 * g + z) ∧
    skirtMatches g (z * g + (g - 1)) (g * g + 3 * g + z) := by
  have hg1 : g - 1 < g := by omega
  refine ⟨?_, ?_, ?_, ?_⟩
  · have hm := terrainVertexAt_main g x 0 hx (by omega)
    rw [Nat.zero_mul, Nat.zero_add] at hm
    unfold skirtMatches
    rw [hm, terrainVertexAt_bottom g x hx]
    norm_num
  · have hm := terrainVertexAt_main g x (g - 1) hx hg1
    unfold skirtMatches
    rw [hm, terrainVertexAt_top g x hx]
    rw [last_line_at_one g hg]
    norm_num
  · have hm := terrainVertexAt_main g 0 z (by omega) hz
    rw [Nat.add_zero] at hm
    unfold skirtMatches
    rw [hm, terrainVertexAt_left g z hz]
    norm_num
  · have hm := terrainVertexAt_main g (g - 1) z hg1 hz
    unfold skirtMatches
    rw [hm, terrainVertexAt_right g z hz]
    rw [last_line_at_one g hg]
    norm_num

/-- Witness for C9 at the reference grid size 65, boundary offsets 3 and 7. -/
theorem C9_skirt_seam_coverage_witness :
    (2 ≤ 65 ∧ 3 < 65 ∧ 7 < 65) ∧ skirtMatches 65 3 (65 * 65 + 3) :=
  ⟨by norm_num, (C9_skirt_seam_coverage 65 3 7 (by norm_num) (by norm_num) (by norm_num)).1⟩

/- ------------------------------------------------------------------ -/
/- C5                                                                  -/
/- ------------------------------------------------------------------ -/

/-- Modelled from the spec: Variant A's global hysteresis LOD state (spec
§4.1). The flat hysteresis selector is not present under src/ (only the
grid/quadtree variant is), so its state machine is embedded from the spec's
words: `currentLevel ∈ {0,1,2}` and `switchCooldown` seconds remaining. -/
structure HysteresisState where
  currentLevel : ℕ
  switchCooldown : ℚ
deriving DecidableEq

/-- Modelled from the spec: reference `SWITCH_DELAY = 0.3` seconds. -/
def SWITCH_DELAY : ℚ := 3/10

/-- Modelled from the spec: inner threshold of the 1↔2 boundary (250). -/
def D_1to2 : ℚ := 250

/-- Modelled from the spec: outer threshold of the 1↔2 boundary (350). -/
def D_2to1 : ℚ := 350

/-- Modelled from the spec: inner threshold of the 0↔1 boundary (550). -/
def D_0to1 : ℚ := 550

/-- Modelled from the spec: outer threshold of the 0↔1 boundary (650). -/
def D_1to0 : ℚ := 650

/-- Modelled from the spec: one per-frame update of Variant A (spec §4.1,
steps 1-4): decrement `switchCooldown` by the elapsed time floored at 0; if
still positive, return `currentLevel` unchanged; otherwise evaluate the
level-dependent asymmetric thresholds and, on a transition, reset the
cooldown to `SWITCH_DELAY`. -/
def hysteresisStep (st : HysteresisState) (distance dt : ℚ) : HysteresisState :=
  let cd := max (st.switchCooldown - dt) 0
  if 0 < cd then { currentLevel := st.currentLevel, switchCooldown := cd }
  else
    let newLevel :=
      if st.currentLevel = 0 then (if distance < D_0to1 then 1 else 0)
      else if st.currentLevel = 1 then
        (if D_1to0 < distance then 0 else if distance < D_1to2 then 2 else 1)
      else (if D_2to1 < distance then 1 else 2)
    if newLevel ≠ st.currentLevel then
      { currentLevel := newLevel, switchCooldown := SWITCH_DELAY }
    else
      { currentLevel := st.currentLevel, switchCooldown := cd }

/-- Modelled from the spec: the absolute times (accumulated `dt`, starting at
`t0`) of the level changes produced by running Variant A over a list of
`(distance, dt)` frames. -/
def changeTimes (st : HysteresisState) (t0 : ℚ) : List (ℚ × ℚ) → List ℚ
  | [] => []
  | (d, dt) :: rest =>
    let st' := hysteresisStep st d dt
    if st'.currentLevel ≠ st.currentLevel then
      (t0 + dt) :: changeTimes st' (t0 + dt) rest
    else
      changeTimes st' (t0 + dt) rest

/-- A step that changes the level leaves the cooldown at `SWITCH_DELAY` and
can only happen once the previous cooldown is exhausted (`cooldown ≤ dt`). -/
theorem hysteresisStep_change (st : HysteresisState) (d dt : ℚ)
    (h : (hysteresisStep st d dt).currentLevel ≠ st.currentLevel) :
    (hysteresisStep st d dt).switchCooldown = SWITCH_DELAY ∧ st.switchCooldown ≤ dt := by
  unfold hysteresisStep at h ⊢
  dsimp only at h ⊢
  by_cases h0 : 0 < max (st.switchCooldown - dt) 0
  · rw [if_pos h0] at h
    exact absurd rfl h
  · rw [if_neg h0] at h ⊢
    have hle : st.switchCooldown - dt ≤ 0 := by
      by_contra hc
      push_neg at hc
      exact h0 (lt_of_lt_of_le hc (le_max_left _ _))
    split_ifs at h ⊢ <;>
      first
        | exact absurd rfl h
        | exact ⟨rfl, by linarith⟩

/-- Every step loses at most `dt` of cooldown (a change resets it upward). -/
theorem hysteresisStep_cooldown_lb (st : HysteresisState) (d dt : ℚ) :
    st.switchCooldown - dt ≤ (hysteresisStep st d dt).switchCooldown := by
  unfold hysteresisStep
  dsimp only
  by_cases h0 : 0 < max (st.switchCooldown - dt) 0
  · rw [if_pos h0]
    exact le_max_left _ _
  · rw [if_neg h0]
    have hle : st.switchCooldown - dt ≤ 0 := by
      by_contra hc
      push_neg at hc
      exact h0 (lt_of_lt_of_le hc (le_max_left _ _))
    have hS : (0 : ℚ) ≤ SWITCH_DELAY := by norm_num [SWITCH_DELAY]
    split_ifs <;>
      first
        | exact le_trans hle hS
        | exact le_max_left _ _

/-- Over any frame sequence with nonnegative frame times, the first level
change cannot come sooner than the pending cooldown, and consecutive level
changes are separated by at least `SWITCH_DELAY` seconds. -/
theorem changeTimes_spaced (l : List (ℚ × ℚ)) (st : HysteresisState) (t0 : ℚ)
    (hdt : ∀ p ∈ l, 0 ≤ p.2) :
    (∀ t ∈ changeTimes st t0 l, t0 + st.switchCooldown ≤ t) ∧
    (changeTimes st t0 l).Chain' (fun a b => a + SWITCH_DELAY ≤ b) := by
  induction l generalizing st t0 with
  | nil =>
    constructor
    · intro t ht
      simp [changeTimes] at ht
    · simp [changeTimes]
  | cons p rest ih =>
    obtain ⟨d, dt⟩ := p
    have hdt0 : 0 ≤ dt := hdt (d, dt) (List.mem_cons_self _ _)
    have hrest : ∀ q ∈ rest, 0 ≤ q.2 := fun q hq => hdt q (List.mem_cons_of_mem _ hq)
    obtain ⟨ih1, ih2⟩ := ih (hysteresisStep st d dt) (t0 + dt) hrest
    have hS : (0 : ℚ) ≤ SWITCH_DELAY := by norm_num [SWITCH_DELAY]
    by_cases hch : (hysteresisStep st d dt).currentLevel ≠ st.currentLevel
    · obtain ⟨hSd, hcdt⟩ := hysteresisStep_change st d dt hch
      simp only [changeTimes]
      rw [if_pos hch]
      constructor
      · intro t ht
        rcases List.mem_cons.mp ht with rfl | ht'
        · linarith
        · have hb := ih1 t ht'
          rw [hSd] at hb
          linarith
      · rw [List.chain'_cons']
        constructor
        · intro b hb
          have hbmem : b ∈ changeTimes (hysteresisStep st d dt) (t0 + dt) rest :=
            List.mem_of_mem_head? hb
          have := ih1 b hbmem
          rw [hSd] at this
          linarith
        · exact ih2
    · have hlb := hysteresisStep_cooldown_lb st d dt
      simp only [changeTimes]
      rw [if_neg hch]
      constructor
      · intro t ht
        have := ih1 t ht
        linarith
      · exact ih2

/-- C5: in Variant A, while the decremented cooldown is still positive the
per-frame update returns `currentLevel` unchanged (storing only the
decremented cooldown); and over every frame sequence with nonnegative frame
times — in particular every distance sequence dithering by ±1 across a
threshold faster than `SWITCH_DELAY` — consecutive level changes are at least
`SWITCH_DELAY` seconds apart, so no `SWITCH_DELAY`-window holds two changes. -/
theorem C5_hysteresis_debounce (st : HysteresisState) (d dt t0 : ℚ)
    (l : List (ℚ × ℚ)) (hdt : ∀ p ∈ l, 0 ≤ p.2) :
    (0 < st.switchCooldown - dt →
      (hysteresisStep st d dt).currentLevel = st.currentLevel ∧
      (hysteresisStep st d dt).switchCooldown = st.switchCooldown - dt) ∧
    (changeTimes st t0 l).Chain' (fun a b => a + SWITCH_DELAY ≤ b) := by
  constructor
  · intro hcd
    have hmax : max (st.switchCooldown - dt) 0 = st.switchCooldown - dt :=
      max_eq_left (le_of_lt hcd)
    constructor
    · unfold hysteresisStep
      dsimp only
      rw [hmax, if_pos hcd]
    · unfold hysteresisStep
      dsimp only
      rw [hmax, if_pos hcd]
  · exact (changeTimes_spaced l st t0 hdt).2

/-- Witness for C5: a concrete dithering run around the 350-unit boundary,
starting at level 2. -/
theorem C5_hysteresis_debounce_witness :
    (∀ p ∈ ([(351, 1), (349, 1), (351, 1), (349, 1)] : List (ℚ × ℚ)), 0 ≤ p.2) ∧
    (0 < (⟨2, 1⟩ : HysteresisState).switchCooldown - (0 : ℚ) →
      (hysteresisStep ⟨2, 1⟩ 351 0).currentLevel = 2 ∧
      (hysteresisStep ⟨2, 1⟩ 351 0).switchCooldown = 1 - 0) ∧
    (changeTimes ⟨2, 0⟩ 0 [(351, 1), (349, 1), (351, 1), (349, 1)]).Chain'
      (fun a b => a + SWITCH_DELAY ≤ b) := by
  have h := C5_hysteresis_debounce ⟨2, 1⟩ 351 0 0
    ([(351, 1), (349, 1), (351, 1), (349, 1)] : List (ℚ × ℚ)) (by decide)
  have h2 := C5_hysteresis_debounce ⟨2, 0⟩ 351 0 0
    ([(351, 1), (349, 1), (351, 1), (349, 1)] : List (ℚ × ℚ)) (by decide)
  exact ⟨by decide, h.1, h2.2⟩
